import Mathlib

/-!
# DisKV: the sharded key/value server of `src/diskv/server.go`

A shallow embedding of the replicated state machine of one DisKV replica
(`StartServer`, `Apply`, `Wait`, `Propose`, the `Get` / `PutAppend` / `Update`
handlers, `Send` and `tick`), followed by theorems about it.

Modelling conventions.

* Go maps are lists of bindings (`mapGet`, `mapSet`); a lookup of a missing key
  is `none`, and `seqOf` gives Go's zero default for `maxClientSeq[id]`.
* Go `int` / `int64` are `Int`; sequence numbers, slots and configuration
  numbers stay far below `2^63`, so no wrap-around is modelled.
* A Go panic (nil pointer dereference, assignment to an entry of a nil map,
  failed type assertion) is the result `none`.
* A Go map is a reference; the maps of the model are values. A request and a
  decided value that reach a replica through the RPC layer are decoded there,
  so each carries maps of its own and no two shards share a map. The sharing
  shows in one place of the code embedded here: `Apply` of an `Update` stores
  the map `args.MaxClientSeq` of the value in the shard state and then writes
  `maxClientSeq[args.ID] = args.Seq` into it, so the value that `Propose`
  compares with `op` right after carries that entry (`valueAfterApply`).
* Client ids and group ids share one type (`Int`): `server.go` indexes
  `maxClientSeq` (a `map[int64]int`) with both `args.ID` and `kv.gid`.
* The consensus engine (`paxos`) is not part of the source tree. `Propose` is
  given the list of values already decided for the slots `lastApply + 1`,
  `lastApply + 2`, ..., each decoded from a message of another replica; a slot
  past the end of that list is free, and `Start(seq, op)` followed by
  `Wait(seq)` yields `op` itself there, maps included.
* The shard master and the network are not part of the source tree either.
  `tick` is given the answer of `Query(config.Num + 1)` and, for each shard,
  whether its shipment ends up acknowledged; a `Send` that never returns gives
  `tick` no result, which is `none` as well. The constant `shardmaster.NShards`
  is a parameter.
* Durations are in nanoseconds, as `time.Duration` is.
-/

namespace Diskv

/-! ## Go maps -/

/-- Lookup `m[k]` with the `ok` flag: `none` when the key is absent. -/
def mapGet {K V : Type} [DecidableEq K] : List (K × V) → K → Option V
  | [], _ => none
  | (k', v) :: m, k => if k' = k then some v else mapGet m k

/-- Assignment `m[k] = v`: the binding of `k` is replaced, or added. -/
def mapSet {K V : Type} [DecidableEq K] : List (K × V) → K → V → List (K × V)
  | [], k, v => [(k, v)]
  | (k', v') :: m, k, v => if k' = k then (k, v) :: m else (k', v') :: mapSet m k v

/-- The value of `maxClientSeq[id]`: Go yields the zero value for a missing key. -/
def seqOf (m : List (Int × Int)) (id : Int) : Int :=
  (mapGet m id).getD 0

/-- Every binding of `a` is a binding of `b`. -/
def mapIncl {K V : Type} [DecidableEq K] [DecidableEq V] (a b : List (K × V)) : Bool :=
  a.all fun p => decide (mapGet a p.1 = mapGet b p.1)

/-- The result of `reflect.DeepEqual` on two non-nil maps: same keys, equal values. -/
def mapDeepEqual {K V : Type} [DecidableEq K] [DecidableEq V] (a b : List (K × V)) : Bool :=
  mapIncl a b && mapIncl b a

/-! ## common.go -/

/-- Reply code `OK`. -/
def OK : String := "OK"
/-- Reply code `ErrNoKey`. -/
def ErrNoKey : String := "ErrNoKey"
/-- Reply code `ErrWrongGroup`. -/
def ErrWrongGroup : String := "ErrWrongGroup"

/-- Arguments of a client Put or Append (`common.go`, `PutAppendArgs`). -/
structure PutAppendArgs where
  Key : String
  Value : String
  Op : String
  ID : Int
  Seq : Int
  ConfigNum : Int
  Shard : Int
  deriving DecidableEq, Repr

/-- Reply of the PutAppend handler. -/
structure PutAppendReply where
  Err : String
  deriving DecidableEq, Repr

/-- Arguments of a client Get (`common.go`, `GetArgs`). -/
structure GetArgs where
  Key : String
  ID : Int
  Seq : Int
  ConfigNum : Int
  Shard : Int
  deriving DecidableEq, Repr

/-- Reply of the Get handler. -/
structure GetReply where
  Err : String
  Value : String
  deriving DecidableEq, Repr

/-- Arguments of a shard shipment (`common.go`, `UpdateArgs`). -/
structure UpdateArgs where
  Database : List (String × String)
  MaxClientSeq : List (Int × Int)
  Shard : Int
  ConfigNum : Int
  Seq : Int
  ID : Int
  deriving DecidableEq, Repr

/-- Reply of the Update handler. -/
structure UpdateReply where
  Err : String
  deriving DecidableEq, Repr

/-! ## server.go: state -/

/-- The per-shard state (`ShardState`). -/
structure ShardState where
  maxClientSeq : List (Int × Int)
  database : List (String × String)
  deriving DecidableEq, Repr

/-- The dynamic type of `Op.Value` (an `interface{}`): one of the three
argument records registered with gob. -/
inductive Payload where
  | get (args : GetArgs)
  | putAppend (args : PutAppendArgs)
  | update (args : UpdateArgs)
  deriving DecidableEq, Repr

/-- A log entry (`Op`); `Value = none` is the nil interface. -/
structure Op where
  Operation : String
  Value : Option Payload
  deriving DecidableEq, Repr

/-- A configuration of the shard master (`shardmaster.Config`): its number,
the group of each shard, and the servers of each group. -/
structure Config where
  Num : Int
  Shards : Int → Int
  Groups : Int → Option (List String)

/-- The replica (`DisKV`), without its lock, listener, paxos peer and clerk.
`shardState s = none` is a missing entry of the map of pointers;
`isRecieved = none` is the nil map the field holds until `tick` allocates it. -/
structure DisKV where
  gid : Int
  config : Config
  lastApply : Int
  shardState : Int → Option ShardState
  isRecieved : Option (List (Int × Bool))

/-- Assignment through the pointer `kv.shardState[shard]`. -/
def setShard (kv : DisKV) (shard : Int) (st : ShardState) : DisKV :=
  { kv with shardState := fun s => if s = shard then some st else kv.shardState s }

/-- The empty shard state (`MakeShardState`). -/
def MakeShardState : ShardState :=
  { maxClientSeq := [], database := [] }

/-- The guarded update found at the end of every case of `Apply`:
`if seq > maxClientSeq[id] { maxClientSeq[id] = seq }`. -/
def bumpSeq (m : List (Int × Int)) (id seq : Int) : List (Int × Int) :=
  if seq > seqOf m id then mapSet m id seq else m

/-! ## server.go: Apply -/

/-- The switch of `Apply`, before `kv.lastApply++`. -/
def applyCase (kv : DisKV) (op : Op) : Option DisKV :=
  if op.Operation = "Get" then
    match op.Value with
    | none => some kv
    | some (Payload.get args) =>
      match kv.shardState args.Shard with
      | none => none
      | some st =>
        some (setShard kv args.Shard { st with maxClientSeq := bumpSeq st.maxClientSeq args.ID args.Seq })
    | some _ => none
  else if op.Operation = "Put" then
    match op.Value with
    | some (Payload.putAppend args) =>
      match kv.shardState args.Shard with
      | none => none
      | some st =>
        let db := mapSet st.database args.Key args.Value
        some (setShard kv args.Shard
          { maxClientSeq := bumpSeq st.maxClientSeq args.ID args.Seq, database := db })
    | _ => none
  else if op.Operation = "Append" then
    match op.Value with
    | some (Payload.putAppend args) =>
      match kv.shardState args.Shard with
      | none => none
      | some st =>
        let value := (mapGet st.database args.Key).getD ""
        let db := mapSet st.database args.Key (value ++ args.Value)
        some (setShard kv args.Shard
          { maxClientSeq := bumpSeq st.maxClientSeq args.ID args.Seq, database := db })
    | _ => none
  else if op.Operation = "Update" then
    match op.Value with
    | some (Payload.update args) =>
      match kv.isRecieved with
      | none => none
      | some recv =>
        match kv.shardState args.Shard with
        | none => none
        | some _ =>
          let kv1 := { kv with isRecieved := some (mapSet recv args.Shard true) }
          some (setShard kv1 args.Shard
            { maxClientSeq := bumpSeq args.MaxClientSeq args.ID args.Seq,
              database := args.Database })
    | _ => none
  else
    some kv

/-- The last statement of `Apply`: `kv.lastApply++`. -/
def incLastApply (kv : DisKV) : DisKV :=
  { kv with lastApply := kv.lastApply + 1 }

/-- The function `Apply`: the switch, then `kv.lastApply++`. -/
def Apply (kv : DisKV) (op : Op) : Option DisKV :=
  (applyCase kv op).map incLastApply

/-! ## server.go: Propose -/

/-- The result of `reflect.DeepEqual` on two `Op.Value` interfaces: same dynamic
type and deeply equal fields (maps are compared by content). -/
def payloadDeepEqual : Option Payload → Option Payload → Bool
  | none, none => true
  | some (Payload.get a), some (Payload.get b) => decide (a = b)
  | some (Payload.putAppend a), some (Payload.putAppend b) => decide (a = b)
  | some (Payload.update a), some (Payload.update b) =>
    mapDeepEqual a.Database b.Database && mapDeepEqual a.MaxClientSeq b.MaxClientSeq &&
      decide (a.Shard = b.Shard) && decide (a.ConfigNum = b.ConfigNum) &&
      decide (a.Seq = b.Seq) && decide (a.ID = b.ID)
  | _, _ => false

/-- The result of `reflect.DeepEqual(value, op)` on two `Op`s. -/
def DeepEqual (value op : Op) : Bool :=
  decide (value.Operation = op.Operation) && payloadDeepEqual value.Value op.Value

/-- The decided value as a call `kv.Apply(value)` that returns leaves it. The case
`"Update"` of `Apply` stores the value's own map in the shard state
(`stateMachine.maxClientSeq = args.MaxClientSeq`) and then runs the guarded
update `maxClientSeq[args.ID] = args.Seq` on it: the entry is written into
the map that the value carries. No other case writes to a map of the value. -/
def valueAfterApply (value : Op) : Op :=
  if value.Operation = "Update" then
    match value.Value with
    | some (Payload.update args) =>
      { Operation := value.Operation,
        Value := some (Payload.update
          { args with MaxClientSeq := bumpSeq args.MaxClientSeq args.ID args.Seq }) }
    | _ => value
  else value

/-- One pass of the body of the loop of `Propose` at slot `seq`, `value` being
what `Wait(seq)` returned: `if seq > kv.lastApply { kv.Apply(value) }`. -/
def proposeStep (kv : DisKV) (seq : Int) (value : Op) : Option DisKV :=
  if seq > kv.lastApply then Apply kv value else some kv

/-- The first operand of `reflect.DeepEqual(value, op)` at slot `seq`: the value
that `Wait(seq)` returned, as the pass `proposeStep kv seq value` has left it. -/
def comparedValue (kv : DisKV) (seq : Int) (value : Op) : Op :=
  if seq > kv.lastApply then valueAfterApply value else value

/-- The loop of `Propose` from slot `seq` on. `decided` lists the values that
consensus has decided for the slots `seq`, `seq + 1`, ...; each is compared
with `op` as `Apply` has left it. Past the end of the list the slot is free and
`Start(seq, op)` gets `op` decided there: the value is `op` itself, whatever
`Apply` writes into its map is seen through both operands, and the loop ends
because `reflect.DeepEqual(op, op)` holds. -/
def proposeLoop (op : Op) : List Op → Int → DisKV → Option DisKV
  | [], seq, kv => proposeStep kv seq op
  | value :: rest, seq, kv =>
    match proposeStep kv seq value with
    | none => none
    | some kv1 =>
      if DeepEqual (comparedValue kv seq value) op then some kv1
      else proposeLoop op rest (seq + 1) kv1

/-- The function `Propose`: the loop starts at slot `kv.lastApply + 1`. -/
def Propose (kv : DisKV) (decided : List Op) (op : Op) : Option DisKV :=
  proposeLoop op decided (kv.lastApply + 1) kv

/-! ## server.go: RPC handlers -/

/-- The handler `Get`; the reply starts as the zero `GetReply`. -/
def Get (kv : DisKV) (decided : List Op) (args : GetArgs) : Option (DisKV × GetReply) :=
  if kv.config.Num ≠ args.ConfigNum then
    some (kv, { Err := ErrWrongGroup, Value := "" })
  else
    match Propose kv decided { Operation := "Get", Value := some (Payload.get args) } with
    | none => none
    | some kv1 =>
      match kv1.shardState args.Shard with
      | none => none
      | some st =>
        match mapGet st.database args.Key with
        | none => some (kv1, { Err := ErrNoKey, Value := "NO KEY" })
        | some value => some (kv1, { Err := OK, Value := value })

/-- The handler `PutAppend`. -/
def PutAppend (kv : DisKV) (decided : List Op) (args : PutAppendArgs) :
    Option (DisKV × PutAppendReply) :=
  if kv.config.Num ≠ args.ConfigNum then
    some (kv, { Err := ErrWrongGroup })
  else
    match kv.shardState args.Shard with
    | none => none
    | some st =>
      if args.Seq ≤ seqOf st.maxClientSeq args.ID then
        some (kv, { Err := OK })
      else
        match Propose kv decided { Operation := args.Op, Value := some (Payload.putAppend args) } with
        | none => none
        | some kv1 => some (kv1, { Err := OK })

/-- The handler `Update`. -/
def Update (kv : DisKV) (decided : List Op) (args : UpdateArgs) :
    Option (DisKV × UpdateReply) :=
  match kv.shardState args.Shard with
  | none => none
  | some st =>
    if args.Seq ≤ seqOf st.maxClientSeq args.ID then
      some (kv, { Err := OK })
    else if kv.config.Num ≠ args.ConfigNum then
      some (kv, { Err := ErrWrongGroup })
    else
      match Propose kv decided { Operation := "Update", Value := some (Payload.update args) } with
      | none => none
      | some kv1 => some (kv1, { Err := OK })

/-- The request built by `Send(shard, newConfig)` and the servers it is sent to
(`newConfig.Groups[newConfig.Shards[shard]]`, `none` when the group is unknown);
the retry loop over the servers is left out. -/
def Send (kv : DisKV) (shard : Int) (newConfig : Config) :
    Option (UpdateArgs × Option (List String)) :=
  match kv.shardState shard with
  | none => none
  | some st =>
    some ({ Shard := shard, ID := kv.gid, Seq := kv.config.Num, ConfigNum := kv.config.Num,
            Database := st.database, MaxClientSeq := st.maxClientSeq },
          newConfig.Groups (newConfig.Shards shard))

/-! ## server.go: StartServer -/

/-- The replica built by `StartServer`, `NShards` being the constant
`shardmaster.NShards`: configuration number 0 with no groups, one empty
`ShardState` for each shard `0 .. NShards - 1`, `lastApply = 0`; the field
`isRecieved` is not assigned and keeps its zero value, the nil map. -/
def StartServer (NShards : Int) (gid : Int) : DisKV :=
  { gid := gid,
    config := { Num := 0, Shards := (fun _ => 0), Groups := (fun _ => none) },
    lastApply := 0,
    shardState := (fun s => if 0 ≤ s ∧ s < NShards then some MakeShardState else none),
    isRecieved := none }

/-! ## Concrete replicas and requests used in the examples below -/

/-- Configuration 1 in which group 1 owns every shard. -/
def exConfigOwn : Config :=
  { Num := 1, Shards := (fun _ => 1), Groups := (fun g => if g = 1 then some ["s1"] else none) }

/-- Configuration 1 in which group 2 owns every shard. -/
def exConfigForeign : Config :=
  { Num := 1, Shards := (fun _ => 2), Groups := (fun g => if g = 2 then some ["s2"] else none) }

/-- A replica of group 1 at configuration 1, owner of ten empty shards, with an
allocated (empty) received map. -/
def exReplica : DisKV :=
  { gid := 1, config := exConfigOwn, lastApply := 0,
    shardState := (fun s => if 0 ≤ s ∧ s < 10 then some MakeShardState else none),
    isRecieved := some [] }

/-- A replica of group 1 at a configuration in which it owns no shard. -/
def exForeign : DisKV :=
  { exReplica with config := exConfigForeign }

/-- A replica of group 1 whose shard 0 holds `k = "new"`, written by client 7
with sequence number 5. -/
def exWritten : DisKV :=
  setShard exReplica 0 { maxClientSeq := [(7, 5)], database := [("k", "new")] }

/-- Client 7 appends `"x"` to key `k` of shard 0 with sequence number 1. -/
def exAppendArgs : PutAppendArgs :=
  { Key := "k", Value := "x", Op := "Append", ID := 7, Seq := 1, ConfigNum := 1, Shard := 0 }

/-- The log entry of `exAppendArgs`. -/
def exAppendOp : Op :=
  { Operation := "Append", Value := some (Payload.putAppend exAppendArgs) }

/-- Client 7 puts `k = "old"` in shard 0 with the stale sequence number 3. -/
def exPutArgs : PutAppendArgs :=
  { Key := "k", Value := "old", Op := "Put", ID := 7, Seq := 3, ConfigNum := 1, Shard := 0 }

/-- The log entry of `exPutArgs`. -/
def exPutOp : Op :=
  { Operation := "Put", Value := some (Payload.putAppend exPutArgs) }

/-- Client 7 reads key `k` of shard 0 at configuration 1. -/
def exGetArgs : GetArgs :=
  { Key := "k", ID := 7, Seq := 9, ConfigNum := 1, Shard := 0 }

/-- A shipment of shard 0 from sender 7 with the stale sequence number 5: it
carries `k = "old"` and an empty table. -/
def exStaleShipment : UpdateArgs :=
  { Database := [("k", "old")], MaxClientSeq := [], Shard := 0, ConfigNum := 1, Seq := 5, ID := 7 }

/-- A shipment of shard 0 addressed to a replica at configuration 0. -/
def exBootShipment : UpdateArgs :=
  { Database := [("k", "v")], MaxClientSeq := [], Shard := 0, ConfigNum := 0, Seq := 1, ID := 2 }

/-- A producer replica of group 1 at configuration 1 whose shard 0 holds
`k = "v"` and an empty table. -/
def exProducer : DisKV :=
  setShard exReplica 0 { maxClientSeq := [], database := [("k", "v")] }

/-- A consumer replica of group 2 at configuration 1. -/
def exConsumer : DisKV :=
  { exReplica with gid := 2 }

/-- Configuration 2, in which group 2 owns every shard. -/
def exConfigNext : Config :=
  { Num := 2, Shards := (fun _ => 2), Groups := (fun g => if g = 2 then some ["s2"] else none) }

/-- Configuration 2, in which group 1 still owns every shard. -/
def exConfigTwo : Config :=
  { Num := 2, Shards := (fun _ => 1), Groups := (fun g => if g = 1 then some ["s1"] else none) }

/-- A replica of group 1 that has reached configuration 2 without having
applied any slot of the group's log. -/
def exLagging : DisKV :=
  { exReplica with config := exConfigTwo }

/-- The retry of `exAppendArgs` (same client, same sequence number) sent after
the client has learnt configuration 2. -/
def exAppendRetry : PutAppendArgs :=
  { exAppendArgs with ConfigNum := 2 }

/-- The shipment of shard 0 built by one replica of producer group 1. -/
def exShipFirst : UpdateArgs :=
  { Database := [("k", "v")], MaxClientSeq := [], Shard := 0, ConfigNum := 1, Seq := 1, ID := 1 }

/-- The shipment of shard 0 built by another replica of producer group 1, whose
snapshot holds one more key; same sender and sequence number. -/
def exShipSecond : UpdateArgs :=
  { Database := [("k", "v"), ("j", "u")], MaxClientSeq := [], Shard := 0, ConfigNum := 1,
    Seq := 1, ID := 1 }

/-- A client write to shard 0 made at the consumer after the first install. -/
def exClientPut : PutAppendArgs :=
  { Key := "k", Value := "w", Op := "Put", ID := 7, Seq := 1, ConfigNum := 2, Shard := 0 }

/-! ## server.go: Wait -/

/-- The duration `time.Microsecond`, in nanoseconds. -/
def Microsecond : Int := 1000

/-- The duration `time.Second`, in nanoseconds. -/
def Second : Int := 1000000000

/-- The value of the variable `sleepTime` of `Wait` after `n` undecided polls:
it starts as `10 * time.Microsecond`, and each undecided poll is followed by
`time.Sleep(sleepTime)` and `if sleepTime < 10*time.Second { sleepTime *= 2 }`.
The sleep that follows the undecided poll number `n + 1` lasts `sleepTime n`. -/
def sleepTime : Nat → Int
  | 0 => 10 * Microsecond
  | n + 1 => if sleepTime n < 10 * Second then sleepTime n * 2 else sleepTime n

/-- The loop of `Wait(seq)`, `n` undecided polls having been made: `polls` lists
what `px.Status(seq)` answers at the coming polls (`none` while the slot is
undecided). The result is the decided value together with the sleeps made
before it, or `none` when the slot is still undecided at the end of the list. -/
def waitLoop : List (Option Op) → Nat → Option (Op × List Int)
  | [], _ => none
  | some value :: _, _ => some (value, [])
  | none :: rest, n => (waitLoop rest (n + 1)).map fun r => (r.1, sleepTime n :: r.2)

/-- The function `Wait(seq)`. -/
def Wait (polls : List (Option Op)) : Option (Op × List Int) :=
  waitLoop polls 0

/-! ## server.go: Propose, with the slots it applies -/

/-- The loop of `Propose` (as `proposeLoop`), which also records each call
`kv.Apply(value)` it makes as the pair of the slot `seq` and the value passed
to `Apply`. -/
def proposeTrace (op : Op) : List Op → Int → DisKV → Option (DisKV × List (Int × Op))
  | [], seq, kv =>
    if seq > kv.lastApply then (Apply kv op).map fun kv1 => (kv1, [(seq, op)])
    else some (kv, [])
  | value :: rest, seq, kv =>
    match (if seq > kv.lastApply then (Apply kv value).map fun kv1 => (kv1, [(seq, value)])
           else some (kv, [])) with
    | none => none
    | some (kv1, applied) =>
      if DeepEqual (comparedValue kv seq value) op then some (kv1, applied)
      else (proposeTrace op rest (seq + 1) kv1).map fun r => (r.1, applied ++ r.2)

/-- Successive calls of `Apply` on a list of values, in order. -/
def applyAll : DisKV → List Op → Option DisKV
  | kv, [] => some kv
  | kv, value :: rest =>
    match Apply kv value with
    | none => none
    | some kv1 => applyAll kv1 rest

/-- The values `vs` paired with the consecutive slots `seq`, `seq + 1`, ... -/
def slotsFrom : Int → List Op → List (Int × Op)
  | _, [] => []
  | seq, value :: rest => (seq, value) :: slotsFrom (seq + 1) rest

/-! ## server.go: tick -/

/-- The shard indices visited by `for shard := 0; shard < NShards; shard++`. -/
def shardIndices (NShards : Int) : List Int :=
  List.map Int.ofNat (List.range NShards.toNat)

/-- The producer test of `tick`:
`kv.config.Shards[shard] == kv.gid && newConfig.Shards[shard] != kv.gid`. -/
def isProduced (kv : DisKV) (newConfig : Config) (shard : Int) : Bool :=
  decide (kv.config.Shards shard = kv.gid) && decide (newConfig.Shards shard ≠ kv.gid)

/-- The consumer test of `tick`: `kv.config.Shards[shard] != 0 &&
kv.config.Shards[shard] != kv.gid && newConfig.Shards[shard] == kv.gid`. -/
def isConsumed (kv : DisKV) (newConfig : Config) (shard : Int) : Bool :=
  decide (kv.config.Shards shard ≠ 0) && decide (kv.config.Shards shard ≠ kv.gid) &&
    decide (newConfig.Shards shard = kv.gid)

/-- The first loop of `tick`: the flags `(isProducer, isConsumer)` after the
shards of the list have been visited. -/
def classify (kv : DisKV) (newConfig : Config) : List Int → Bool × Bool → Bool × Bool
  | [], flags => flags
  | shard :: rest, flags =>
    classify kv newConfig rest
      (if isProduced kv newConfig shard then true else flags.1,
       if isConsumed kv newConfig shard then true else flags.2)

/-- The read `kv.isRecieved[shard]`: `false` for a missing key and for the nil map. -/
def recieved (kv : DisKV) (shard : Int) : Bool :=
  match kv.isRecieved with
  | none => false
  | some m => (mapGet m shard).getD false

/-- The loop of the producer branch of `tick`: `kv.Send(shard, newConfig)` for each
produced shard of the list. `acks shard` tells whether some server of the
destination group ends up answering `OK` or `ErrNoKey` to the shipment of
`shard`; without such an answer, and when the destination group is unknown or
has no server, `Send` never returns and the result is `none`. The result lists
the requests sent with their destinations. -/
def sendLoop (kv : DisKV) (newConfig : Config) (acks : Int → Bool) :
    List Int → Option (List (UpdateArgs × Option (List String)))
  | [] => some []
  | shard :: rest =>
    if isProduced kv newConfig shard then
      match Send kv shard newConfig with
      | none => none
      | some (args, some (srv :: servers)) =>
        if acks shard then
          (sendLoop kv newConfig acks rest).map fun sent =>
            (args, some (srv :: servers)) :: sent
        else none
      | some _ => none
    else sendLoop kv newConfig acks rest

/-- The producer branch of `tick` (`if isProducer`): the Noop proposal, then the
shipments. -/
def tickProduce (NShards : Int) (kv : DisKV) (newConfig : Config) (acks : Int → Bool)
    (decided : List Op) (isProducer : Bool) :
    Option (DisKV × List (UpdateArgs × Option (List String))) :=
  if isProducer then
    match Propose kv decided { Operation := "Get", Value := none } with
    | none => none
    | some kv1 =>
      (sendLoop kv1 newConfig acks (shardIndices NShards)).map fun sent => (kv1, sent)
  else some (kv, [])

/-- The loop of the consumer branch of `tick`: the value of `allRecieved`, set to
`false` (with a `break`) at the first consumed shard whose received flag is
not set. -/
def allRecieved (kv : DisKV) (newConfig : Config) : List Int → Bool
  | [] => true
  | shard :: rest =>
    if isConsumed kv newConfig shard then
      if !recieved kv shard then false else allRecieved kv newConfig rest
    else allRecieved kv newConfig rest

/-- The reset loop of `tick`: `kv.shardState[shard] = MakeShardState()` for each
produced shard of the list. -/
def resetLoop (newConfig : Config) : List Int → DisKV → DisKV
  | [], kv => kv
  | shard :: rest, kv =>
    resetLoop newConfig rest
      (if isProduced kv newConfig shard then setShard kv shard MakeShardState else kv)

/-- The promotion at the end of `tick`: the reset loop, `kv.config = newConfig`,
`kv.isRecieved = make(map[int]bool)`. -/
def promote (NShards : Int) (kv : DisKV) (newConfig : Config) : DisKV :=
  { resetLoop newConfig (shardIndices NShards) kv with
    config := newConfig, isRecieved := some [] }

/-- The state of `tick` just before the received check: after the producer
branch and, for a consumer, the second Noop proposal. -/
def tickCatchUp (NShards : Int) (kv : DisKV) (newConfig : Config) (acks : Int → Bool)
    (decidedP decidedC : List Op) :
    Option (DisKV × List (UpdateArgs × Option (List String))) :=
  let flags := classify kv newConfig (shardIndices NShards) (false, false)
  match tickProduce NShards kv newConfig acks decidedP flags.1 with
  | none => none
  | some (kv1, sent) =>
    if flags.2 then
      match Propose kv1 decidedC { Operation := "Get", Value := none } with
      | none => none
      | some kv2 => some (kv2, sent)
    else some (kv1, sent)

/-- The function `tick`, `newConfig` being the answer of the shard master to
`Query(kv.config.Num + 1)`, `decidedP` and `decidedC` the values decided by
others that the two Noop proposals meet. The result is the replica state and
the shipments sent. -/
def tick (NShards : Int) (kv : DisKV) (newConfig : Config) (acks : Int → Bool)
    (decidedP decidedC : List Op) :
    Option (DisKV × List (UpdateArgs × Option (List String))) :=
  if newConfig.Num ≠ kv.config.Num then
    let flags := classify kv newConfig (shardIndices NShards) (false, false)
    match tickCatchUp NShards kv newConfig acks decidedP decidedC with
    | none => none
    | some (kv2, sent) =>
      if flags.2 && !allRecieved kv2 newConfig (shardIndices NShards) then some (kv2, sent)
      else some (promote NShards kv2 newConfig, sent)
  else some (kv, [])

/-- The invariant of claim C20: `shardState` holds an entry for every shard index
`0 .. NShards - 1`. -/
def hasAllShards (NShards : Int) (kv : DisKV) : Prop :=
  ∀ s, 0 ≤ s → s < NShards → (kv.shardState s).isSome = true

/-! ## More concrete replicas and configurations -/

/-- A consumer replica of group 2 at configuration 1, in which group 1 owns every
shard, whose `lastApply` is 0. -/
def exAcquirer : DisKV :=
  { gid := 2, config := exConfigOwn, lastApply := 0,
    shardState := (fun s => if 0 ≤ s ∧ s < 10 then some MakeShardState else none),
    isRecieved := some [] }

/-- Configuration 2, in which shard 0 moves to group 2 and group 1 keeps the
other shards. -/
def exConfigMove : Config :=
  { Num := 2, Shards := (fun s => if s = 0 then 2 else 1),
    Groups := (fun g => if g = 1 then some ["s1"] else if g = 2 then some ["s2"] else none) }

/-- The log entry of the shipment `exShipFirst`. -/
def exShipOp : Op :=
  { Operation := "Update", Value := some (Payload.update exShipFirst) }

/-- The log entry of the client write `exClientPut`. -/
def exClientPutOp : Op :=
  { Operation := "Put", Value := some (Payload.putAppend exClientPut) }

/-! ## Reads used to state the scenarios -/

/-- The read `kv.shardState[shard].database[key]` with its `ok` flag; `none` also
when the shard has no state. -/
def dbGet (kv : DisKV) (shard : Int) (key : String) : Option String :=
  match kv.shardState shard with
  | none => none
  | some st => mapGet st.database key

/-- The read `kv.shardState[shard].maxClientSeq[id]`; 0 also when the shard has no
state. -/
def seqAt (kv : DisKV) (shard id : Int) : Int :=
  match kv.shardState shard with
  | none => 0
  | some st => seqOf st.maxClientSeq id

/-- The reply of the Get handler for the result of the lookup of its key. -/
def getReply : Option String → GetReply
  | none => { Err := ErrNoKey, Value := "NO KEY" }
  | some value => { Err := OK, Value := value }

/-! # Theorems -/

/-! ## Go maps -/

/-- Reading a key just written yields the written value. -/
theorem mapGet_mapSet_same {K V : Type} [DecidableEq K] (m : List (K × V)) (k : K) (v : V) :
    mapGet (mapSet m k v) k = some v := by
  induction m with
  | nil => simp [mapSet, mapGet]
  | cons p m ih =>
    obtain ⟨k', v'⟩ := p
    by_cases h : k' = k
    · simp [mapSet, mapGet, h]
    · simp [mapSet, mapGet, h, ih]

/-- Writing a key leaves the lookup of every other key unchanged. -/
theorem mapGet_mapSet_other {K V : Type} [DecidableEq K] (m : List (K × V)) (k k2 : K) (v : V)
    (hne : k2 ≠ k) : mapGet (mapSet m k v) k2 = mapGet m k2 := by
  induction m with
  | nil => simp [mapSet, mapGet, Ne.symm hne]
  | cons p m ih =>
    obtain ⟨k', v'⟩ := p
    by_cases h : k' = k
    · subst h
      simp [mapSet, mapGet, Ne.symm hne]
    · by_cases h2 : k' = k2
      · subst h2
        simp [mapSet, mapGet, h]
      · simp [mapSet, mapGet, h, h2, ih]

/-- After the guarded update the entry of `id` is the maximum of its old value and
`seq`. -/
theorem seqOf_bumpSeq_same (m : List (Int × Int)) (id seq : Int) :
    seqOf (bumpSeq m id seq) id = max (seqOf m id) seq := by
  unfold bumpSeq
  split
  · next h => 
    simp only [seqOf, mapGet_mapSet_same, Option.getD_some]
    simp only [seqOf] at h
    omega
  · next h => omega

/-- The guarded update of `id` leaves every other entry unchanged. -/
theorem seqOf_bumpSeq_other (m : List (Int × Int)) (id id2 seq : Int) (hne : id2 ≠ id) :
    seqOf (bumpSeq m id seq) id2 = seqOf m id2 := by
  unfold bumpSeq
  split
  · simp [seqOf, mapGet_mapSet_other _ _ _ _ hne]
  · rfl

/-- After the guarded update the entry of `id` is at least `seq`. -/
theorem le_seqOf_bumpSeq (m : List (Int × Int)) (id seq : Int) :
    seq ≤ seqOf (bumpSeq m id seq) id := by
  rw [seqOf_bumpSeq_same]
  exact le_max_right _ _

/-- Every map is included in itself. -/
theorem mapIncl_refl {K V : Type} [DecidableEq K] [DecidableEq V] (a : List (K × V)) :
    mapIncl a a = true := by
  simp [mapIncl]

/-- A map is deeply equal to itself. -/
theorem mapDeepEqual_refl {K V : Type} [DecidableEq K] [DecidableEq V] (a : List (K × V)) :
    mapDeepEqual a a = true := by
  simp [mapDeepEqual, mapIncl_refl]

/-- `reflect.DeepEqual(op, op)` holds for every op, which is what ends the loop of
`Propose` at a free slot. -/
theorem DeepEqual_refl (op : Op) : DeepEqual op op = true := by
  obtain ⟨o, v⟩ := op
  cases v with
  | none => simp [DeepEqual, payloadDeepEqual]
  | some p => cases p <;> simp [DeepEqual, payloadDeepEqual, mapDeepEqual_refl]

/-- A value deeply equal to a Put or Append op is that op. -/
theorem DeepEqual_putAppend (value : Op) (tag : String) (args : PutAppendArgs)
    (h : DeepEqual value { Operation := tag, Value := some (Payload.putAppend args) } = true) :
    value = { Operation := tag, Value := some (Payload.putAppend args) } := by
  obtain ⟨o, v⟩ := value
  cases v with
  | none => simp [DeepEqual, payloadDeepEqual] at h
  | some p =>
    cases p <;> simp [DeepEqual, payloadDeepEqual] at h
    obtain ⟨h1, h2⟩ := h
    subst h1 h2
    rfl

/-- A value deeply equal to a Get op with an argument record is that op. -/
theorem DeepEqual_get (value : Op) (tag : String) (args : GetArgs)
    (h : DeepEqual value { Operation := tag, Value := some (Payload.get args) } = true) :
    value = { Operation := tag, Value := some (Payload.get args) } := by
  obtain ⟨o, v⟩ := value
  cases v with
  | none => simp [DeepEqual, payloadDeepEqual] at h
  | some p =>
    cases p <;> simp [DeepEqual, payloadDeepEqual] at h
    obtain ⟨h1, h2⟩ := h
    subst h1 h2
    rfl

/-- A value deeply equal to an Update op is an Update op for the same shard, sender,
sequence number and configuration number. -/
theorem DeepEqual_update (value : Op) (tag : String) (args : UpdateArgs)
    (h : DeepEqual value { Operation := tag, Value := some (Payload.update args) } = true) :
    ∃ args1 : UpdateArgs, value = { Operation := tag, Value := some (Payload.update args1) } ∧
      args1.Shard = args.Shard ∧ args1.Seq = args.Seq ∧ args1.ID = args.ID ∧
      args1.ConfigNum = args.ConfigNum := by
  obtain ⟨o, v⟩ := value
  cases v with
  | none => simp [DeepEqual, payloadDeepEqual] at h
  | some p =>
    cases p with
    | get a => simp [DeepEqual, payloadDeepEqual] at h
    | putAppend a => simp [DeepEqual, payloadDeepEqual] at h
    | update a =>
      simp [DeepEqual, payloadDeepEqual] at h
      obtain ⟨h1, ⟨⟨⟨⟨_, _⟩, h3⟩, h4⟩, h5⟩, h6⟩ := h
      subst h1
      exact ⟨a, rfl, h3, h5, h6, h4⟩

/-- The decided value is left as it is by `Apply`, unless it is an Update op, whose
table gets the guarded update of the sender's entry. -/
theorem valueAfterApply_cases (value : Op) :
    valueAfterApply value = value ∨
      ∃ args : UpdateArgs,
        value = { Operation := "Update", Value := some (Payload.update args) } ∧
        valueAfterApply value =
          { Operation := "Update",
            Value := some (Payload.update
              { args with MaxClientSeq := bumpSeq args.MaxClientSeq args.ID args.Seq }) } := by
  obtain ⟨o, v⟩ := value
  by_cases ho : o = "Update"
  · subst ho
    cases v with
    | none => exact Or.inl (by simp [valueAfterApply])
    | some p =>
      cases p with
      | get a => exact Or.inl (by simp [valueAfterApply])
      | putAppend a => exact Or.inl (by simp [valueAfterApply])
      | update a => exact Or.inr ⟨a, rfl, by simp [valueAfterApply]⟩
  · exact Or.inl (by simp [valueAfterApply, ho])

/-- A value that `Apply` leaves deeply equal to a Put or Append op is that op. -/
theorem DeepEqual_valueAfterApply_putAppend (value : Op) (tag : String) (args : PutAppendArgs)
    (h : DeepEqual (valueAfterApply value)
      { Operation := tag, Value := some (Payload.putAppend args) } = true) :
    value = { Operation := tag, Value := some (Payload.putAppend args) } := by
  rcases valueAfterApply_cases value with he | ⟨a, _, he⟩
  · rw [he] at h
    exact DeepEqual_putAppend value tag args h
  · rw [he] at h
    simp [DeepEqual, payloadDeepEqual] at h

/-- A value that `Apply` leaves deeply equal to a Get op with an argument record is
that op. -/
theorem DeepEqual_valueAfterApply_get (value : Op) (tag : String) (args : GetArgs)
    (h : DeepEqual (valueAfterApply value)
      { Operation := tag, Value := some (Payload.get args) } = true) :
    value = { Operation := tag, Value := some (Payload.get args) } := by
  rcases valueAfterApply_cases value with he | ⟨a, _, he⟩
  · rw [he] at h
    exact DeepEqual_get value tag args h
  · rw [he] at h
    simp [DeepEqual, payloadDeepEqual] at h

/-- A value that `Apply` leaves deeply equal to an Update op is an Update op for the
same shard, sender, sequence number and configuration number. -/
theorem DeepEqual_valueAfterApply_update (value : Op) (tag : String) (args : UpdateArgs)
    (h : DeepEqual (valueAfterApply value)
      { Operation := tag, Value := some (Payload.update args) } = true) :
    ∃ args1 : UpdateArgs, value = { Operation := tag, Value := some (Payload.update args1) } ∧
      args1.Shard = args.Shard ∧ args1.Seq = args.Seq ∧ args1.ID = args.ID ∧
      args1.ConfigNum = args.ConfigNum := by
  rcases valueAfterApply_cases value with he | ⟨a, hv, he⟩
  · rw [he] at h
    exact DeepEqual_update value tag args h
  · rw [he] at h
    obtain ⟨a1, h1, hs, hq, hi, hc⟩ := DeepEqual_update _ tag args h
    have htag : tag = "Update" := by
      have := congrArg Op.Operation h1
      exact this.symm
    have ha1 : a1 = { a with MaxClientSeq := bumpSeq a.MaxClientSeq a.ID a.Seq } := by
      have := congrArg Op.Value h1
      simp only [Option.some.injEq, Payload.update.injEq] at this
      exact this.symm
    subst ha1
    exact ⟨a, by rw [hv, htag], hs, hq, hi, hc⟩

/-- A value that is not an Update op is compared with `op` as it was decided. -/
theorem valueAfterApply_of_ne_Update (value : Op) (h : value.Operation ≠ "Update") :
    valueAfterApply value = value := by
  simp [valueAfterApply, h]

/-- An Update op whose table already records its own sequence number is left as it
is by `Apply`. -/
theorem valueAfterApply_of_recorded (value : Op) (args : UpdateArgs)
    (hv : value.Value = some (Payload.update args))
    (hle : args.Seq ≤ seqOf args.MaxClientSeq args.ID) :
    valueAfterApply value = value := by
  obtain ⟨o, v⟩ := value
  simp only at hv
  subst hv
  have hng : ¬ args.Seq > seqOf args.MaxClientSeq args.ID := by omega
  by_cases ho : o = "Update"
  · simp [valueAfterApply, ho, bumpSeq, hng]
  · simp [valueAfterApply, ho]

/-- The reply codes `OK` and `ErrWrongGroup` differ. -/
theorem OK_ne_ErrWrongGroup : OK ≠ ErrWrongGroup := by decide

/-- The reply codes `ErrNoKey` and `ErrWrongGroup` differ. -/
theorem ErrNoKey_ne_ErrWrongGroup : ErrNoKey ≠ ErrWrongGroup := by decide

/-! ## `Apply`: the result of each case, and what no case touches -/

/-- Reading the shard just assigned. -/
theorem setShard_same (kv : DisKV) (shard : Int) (st : ShardState) :
    (setShard kv shard st).shardState shard = some st := by
  simp [setShard]

/-- Assigning a shard leaves the other shards unchanged. -/
theorem setShard_other (kv : DisKV) (shard s : Int) (st : ShardState) (hne : s ≠ shard) :
    (setShard kv shard st).shardState s = kv.shardState s := by
  simp [setShard, hne]

/-- Assigning an existing shard entry does not change which entries exist. -/
theorem setShard_isSome (kv : DisKV) (shard : Int) (st st0 : ShardState)
    (h0 : kv.shardState shard = some st0) (s : Int) :
    ((setShard kv shard st).shardState s).isSome = (kv.shardState s).isSome := by
  unfold setShard
  by_cases hs : s = shard
  · subst hs; simp [h0]
  · simp [hs]

/-- The result of `Apply` on a Put op whose shard has a state. -/
theorem Apply_Put_eq (kv : DisKV) (args : PutAppendArgs) (st : ShardState)
    (h : kv.shardState args.Shard = some st) :
    Apply kv { Operation := "Put", Value := some (Payload.putAppend args) } =
      some (incLastApply (setShard kv args.Shard
        { maxClientSeq := bumpSeq st.maxClientSeq args.ID args.Seq,
          database := mapSet st.database args.Key args.Value })) := by
  simp [Apply, applyCase, h]

/-- The result of `Apply` on an Append op whose shard has a state. -/
theorem Apply_Append_eq (kv : DisKV) (args : PutAppendArgs) (st : ShardState)
    (h : kv.shardState args.Shard = some st) :
    Apply kv { Operation := "Append", Value := some (Payload.putAppend args) } =
      some (incLastApply (setShard kv args.Shard
        { maxClientSeq := bumpSeq st.maxClientSeq args.ID args.Seq,
          database := mapSet st.database args.Key
            ((mapGet st.database args.Key).getD "" ++ args.Value) })) := by
  simp [Apply, applyCase, h]

/-- The result of `Apply` on a Get op with an argument record whose shard has a state.
-/
theorem Apply_Get_eq (kv : DisKV) (args : GetArgs) (st : ShardState)
    (h : kv.shardState args.Shard = some st) :
    Apply kv { Operation := "Get", Value := some (Payload.get args) } =
      some (incLastApply (setShard kv args.Shard
        { maxClientSeq := bumpSeq st.maxClientSeq args.ID args.Seq,
          database := st.database })) := by
  simp [Apply, applyCase, h]

/-- The result of `Apply` on an Update op whose shard has a state, on a replica whose
received map is allocated. -/
theorem Apply_Update_eq (kv : DisKV) (args : UpdateArgs) (st : ShardState)
    (recv : List (Int × Bool))
    (h : kv.shardState args.Shard = some st) (hr : kv.isRecieved = some recv) :
    Apply kv { Operation := "Update", Value := some (Payload.update args) } =
      some (incLastApply
        (setShard { kv with isRecieved := some (mapSet recv args.Shard true) } args.Shard
          { maxClientSeq := bumpSeq args.MaxClientSeq args.ID args.Seq,
            database := args.Database })) := by
  simp [Apply, applyCase, h, hr]

/-- The switch of `Apply` changes neither `config`, `gid` nor `lastApply`, and creates
or removes no shard entry. -/
theorem applyCase_frame (kv kv1 : DisKV) (op : Op) (h : applyCase kv op = some kv1) :
    kv1.config = kv.config ∧ kv1.gid = kv.gid ∧ kv1.lastApply = kv.lastApply ∧
      ∀ s, (kv1.shardState s).isSome = (kv.shardState s).isSome := by
  unfold applyCase at h
  split_ifs at h
  · split at h
    · cases h; simp
    · split at h
      · cases h
      · next st hst =>
        cases h
        exact ⟨rfl, rfl, rfl, setShard_isSome kv _ _ st hst⟩
    · cases h
  · split at h
    · split at h
      · cases h
      · next st hst =>
        cases h
        exact ⟨rfl, rfl, rfl, setShard_isSome kv _ _ st hst⟩
    · cases h
  · split at h
    · split at h
      · cases h
      · next st hst =>
        cases h
        exact ⟨rfl, rfl, rfl, setShard_isSome kv _ _ st hst⟩
    · cases h
  · split at h
    · split at h
      · cases h
      · split at h
        · cases h
        · next st hst =>
          cases h
          exact ⟨rfl, rfl, rfl, setShard_isSome _ _ _ st hst⟩
    · cases h
  · cases h; simp

/-- `Apply` changes neither `config` nor `gid`, raises `lastApply` by one, and creates
or removes no shard entry. -/
theorem Apply_frame (kv kv1 : DisKV) (op : Op) (h : Apply kv op = some kv1) :
    kv1.config = kv.config ∧ kv1.gid = kv.gid ∧ kv1.lastApply = kv.lastApply + 1 ∧
      ∀ s, (kv1.shardState s).isSome = (kv.shardState s).isSome := by
  unfold Apply at h
  cases hc : applyCase kv op with
  | none => simp [hc] at h
  | some kv2 =>
    simp [hc] at h
    obtain ⟨h1, h2, h3, h4⟩ := applyCase_frame kv kv2 op hc
    subst h
    exact ⟨h1, h2, by simp [incLastApply, h3], h4⟩

/-- After a Put or Append op has been applied, its sequence number is at most the
recorded `maxClientSeq` of its client on its shard. -/
theorem Apply_putAppend_seq (kv0 kv1 : DisKV) (tag : String) (args : PutAppendArgs)
    (hop : tag = "Put" ∨ tag = "Append")
    (h : Apply kv0 { Operation := tag, Value := some (Payload.putAppend args) } = some kv1) :
    ∃ st1, kv1.shardState args.Shard = some st1 ∧ args.Seq ≤ seqOf st1.maxClientSeq args.ID := by
  cases hst : kv0.shardState args.Shard with
  | none =>
    rcases hop with rfl | rfl <;> simp [Apply, applyCase, hst] at h
  | some st =>
    rcases hop with rfl | rfl
    · rw [Apply_Put_eq kv0 args st hst] at h
      cases h
      exact ⟨_, setShard_same _ _ _, le_seqOf_bumpSeq _ _ _⟩
    · rw [Apply_Append_eq kv0 args st hst] at h
      cases h
      exact ⟨_, setShard_same _ _ _, le_seqOf_bumpSeq _ _ _⟩

/-- After an Update op has been applied, its sequence number is at most the recorded
`maxClientSeq` of its sender on its shard. -/
theorem Apply_update_seq (kv0 kv1 : DisKV) (args : UpdateArgs)
    (h : Apply kv0 { Operation := "Update", Value := some (Payload.update args) } = some kv1) :
    ∃ st1, kv1.shardState args.Shard = some st1 ∧ args.Seq ≤ seqOf st1.maxClientSeq args.ID := by
  cases hr : kv0.isRecieved with
  | none => simp [Apply, applyCase, hr] at h
  | some recv =>
    cases hst : kv0.shardState args.Shard with
    | none => simp [Apply, applyCase, hr, hst] at h
    | some st =>
      rw [Apply_Update_eq kv0 args st recv hst hr] at h
      cases h
      exact ⟨_, setShard_same _ _ _, le_seqOf_bumpSeq _ _ _⟩

/-- After a Get op has been applied, its shard has a state. -/
theorem Apply_get_shard (kv0 kv1 : DisKV) (args : GetArgs)
    (h : Apply kv0 { Operation := "Get", Value := some (Payload.get args) } = some kv1) :
    ∃ st1, kv1.shardState args.Shard = some st1 := by
  cases hst : kv0.shardState args.Shard with
  | none => simp [Apply, applyCase, hst] at h
  | some st =>
    rw [Apply_Get_eq kv0 args st hst] at h
    cases h
    exact ⟨_, setShard_same _ _ _⟩

/-- On a replica whose received map is allocated, `Apply` of an Update op for a shard
that has a state installs the carried database, sets the received flag of the shard, and
leaves the other shards and `config` unchanged. -/
theorem Apply_Update_frame (kv : DisKV) (args : UpdateArgs) (st : ShardState)
    (recv : List (Int × Bool)) (h : kv.shardState args.Shard = some st)
    (hr : kv.isRecieved = some recv) :
    ∃ kv1 st1 recv1,
      Apply kv { Operation := "Update", Value := some (Payload.update args) } = some kv1 ∧
      kv1.shardState args.Shard = some st1 ∧ st1.database = args.Database ∧
      kv1.isRecieved = some recv1 ∧ mapGet recv1 args.Shard = some true ∧
      (∀ s, s ≠ args.Shard → kv1.shardState s = kv.shardState s) ∧
      kv1.config = kv.config :=
  ⟨_, _, _, Apply_Update_eq kv args st recv h hr, setShard_same _ _ _, rfl, rfl,
    mapGet_mapSet_same _ _ _, fun s hs => setShard_other _ _ s _ hs, rfl⟩

/-! ## `Propose` and the handlers after it -/

/-- When the loop of `Propose` returns, the last thing it did was to apply a value
which is `op` itself or which `Apply` left deeply equal to `op`; `config` is
untouched up to there. -/
theorem proposeLoop_last (op : Op) (decided : List Op) :
    ∀ (seq : Int) (kv kv1 : DisKV), seq = kv.lastApply + 1 →
      proposeLoop op decided seq kv = some kv1 →
      ∃ kv0 value, (value = op ∨ DeepEqual (valueAfterApply value) op = true) ∧
        Apply kv0 value = some kv1 ∧ kv0.config = kv.config := by
  induction decided with
  | nil =>
    intro seq kv kv1 hseq h
    have hgt : seq > kv.lastApply := by omega
    simp only [proposeLoop, proposeStep, hgt, if_true] at h
    exact ⟨kv, op, Or.inl rfl, h, rfl⟩
  | cons value rest ih =>
    intro seq kv kv1 hseq h
    have hgt : seq > kv.lastApply := by omega
    simp only [proposeLoop, proposeStep, comparedValue, hgt, if_true] at h
    cases ha : Apply kv value with
    | none => simp [ha] at h
    | some kv2 =>
      simp only [ha] at h
      by_cases hd : DeepEqual (valueAfterApply value) op = true
      · simp only [hd, if_true] at h
        cases h
        exact ⟨kv, value, Or.inr hd, ha, rfl⟩
      · simp only [hd] at h
        obtain ⟨hc, _, hl, _⟩ := Apply_frame kv kv2 value ha
        obtain ⟨kv0, v0, hv0, hap, hcfg⟩ := ih (seq + 1) kv2 kv1 (by omega) (by simpa using h)
        exact ⟨kv0, v0, hv0, hap, hcfg.trans hc⟩

/-- When `Propose` returns, the last thing it did was to apply a value which is `op`
itself or which `Apply` left deeply equal to `op`. -/
theorem Propose_last (kv kv1 : DisKV) (decided : List Op) (op : Op)
    (h : Propose kv decided op = some kv1) :
    ∃ kv0 value, (value = op ∨ DeepEqual (valueAfterApply value) op = true) ∧
      Apply kv0 value = some kv1 ∧ kv0.config = kv.config :=
  proposeLoop_last op decided (kv.lastApply + 1) kv kv1 rfl h

/-- With no value decided by others, `Propose` applies `op` at slot `lastApply + 1` and
returns. -/
theorem Propose_nil (kv : DisKV) (op : Op) : Propose kv [] op = Apply kv op := by
  simp [Propose, proposeLoop, proposeStep]

/-- Once the proposal of a Put or Append request has been applied, the PutAppend handler
answers the same request `OK` and leaves the replica as it is. -/
theorem PutAppend_after_Propose (kv kv1 : DisKV) (decided decided2 : List Op)
    (args : PutAppendArgs) (hop : args.Op = "Put" ∨ args.Op = "Append")
    (hcfg : kv.config.Num = args.ConfigNum)
    (h : Propose kv decided { Operation := args.Op, Value := some (Payload.putAppend args) } = some kv1) :
    PutAppend kv1 decided2 args = some (kv1, { Err := OK }) := by
  obtain ⟨kv0, value, hde, hap, hc0⟩ := Propose_last kv kv1 decided _ h
  have hv : value = { Operation := args.Op, Value := some (Payload.putAppend args) } := by
    rcases hde with hde | hde
    · exact hde
    · exact DeepEqual_valueAfterApply_putAppend value args.Op args hde
  subst hv
  obtain ⟨hc1, _, _, _⟩ := Apply_frame kv0 kv1 _ hap
  obtain ⟨st1, hst1, hle⟩ := Apply_putAppend_seq kv0 kv1 args.Op args hop hap
  have hnum : kv1.config.Num = args.ConfigNum := by rw [hc1, hc0]; exact hcfg
  simp [PutAppend, hnum, hst1, hle]

/-- Once the proposal of an Update request has been applied, the Update handler answers
the same request `OK` and leaves the replica as it is. -/
theorem Update_after_Propose (kv kv1 : DisKV) (decided decided2 : List Op)
    (args : UpdateArgs)
    (h : Propose kv decided { Operation := "Update", Value := some (Payload.update args) } = some kv1) :
    Update kv1 decided2 args = some (kv1, { Err := OK }) := by
  obtain ⟨kv0, value, hde, hap, _⟩ := Propose_last kv kv1 decided _ h
  have hex : ∃ args1 : UpdateArgs,
      value = { Operation := "Update", Value := some (Payload.update args1) } ∧
      args1.Shard = args.Shard ∧ args1.Seq = args.Seq ∧ args1.ID = args.ID := by
    rcases hde with hde | hde
    · exact ⟨args, hde, rfl, rfl, rfl⟩
    · obtain ⟨args1, hv, hs, hq, hi, _⟩ :=
        DeepEqual_valueAfterApply_update value "Update" args hde
      exact ⟨args1, hv, hs, hq, hi⟩
  obtain ⟨args1, hv, hs, hq, hi⟩ := hex
  subst hv
  obtain ⟨st1, hst1, hle⟩ := Apply_update_seq kv0 kv1 args1 hap
  rw [hs] at hst1
  rw [hq, hi] at hle
  simp [Update, hst1, hle]

/-- With a matching configuration number, the Get handler replies `OK` or `ErrNoKey` as
soon as its proposal has been applied. -/
theorem Get_after_Propose (kv kv1 : DisKV) (decided : List Op) (args : GetArgs)
    (hcfg : kv.config.Num = args.ConfigNum)
    (h : Propose kv decided { Operation := "Get", Value := some (Payload.get args) } = some kv1) :
    ∃ reply, Get kv decided args = some (kv1, reply) ∧
      (reply.Err = OK ∨ reply.Err = ErrNoKey) := by
  obtain ⟨kv0, value, hde, hap, _⟩ := Propose_last kv kv1 decided _ h
  have hv : value = { Operation := "Get", Value := some (Payload.get args) } := by
    rcases hde with hde | hde
    · exact hde
    · exact DeepEqual_valueAfterApply_get value "Get" args hde
  subst hv
  obtain ⟨st1, hst1⟩ := Apply_get_shard kv0 kv1 args hap
  cases hk : mapGet st1.database args.Key with
  | none =>
    exact ⟨{ Err := ErrNoKey, Value := "NO KEY" }, by simp [Get, hcfg, h, hst1, hk], Or.inr rfl⟩
  | some v =>
    exact ⟨{ Err := OK, Value := v }, by simp [Get, hcfg, h, hst1, hk], Or.inl rfl⟩

/-- The PutAppend handler on a fresh Put, with no value decided by others. -/
theorem PutAppend_Put_nil (kv : DisKV) (p : PutAppendArgs) (st : ShardState)
    (hop : p.Op = "Put") (hcfg : p.ConfigNum = kv.config.Num)
    (hst : kv.shardState p.Shard = some st) (hseq : p.Seq > seqOf st.maxClientSeq p.ID) :
    PutAppend kv [] p =
      some (incLastApply (setShard kv p.Shard
        { maxClientSeq := bumpSeq st.maxClientSeq p.ID p.Seq,
          database := mapSet st.database p.Key p.Value }), { Err := OK }) := by
  have hnd : ¬ p.Seq ≤ seqOf st.maxClientSeq p.ID := by omega
  have hap := Apply_Put_eq kv p st hst
  simp [PutAppend, hcfg, hst, hnd, Propose_nil, hop, hap]

/-- The Get handler on a key present in the shard, with no value decided by others. -/
theorem Get_nil_found (kv : DisKV) (g : GetArgs) (st : ShardState) (value : String)
    (hcfg : g.ConfigNum = kv.config.Num) (hst : kv.shardState g.Shard = some st)
    (hk : mapGet st.database g.Key = some value) :
    Get kv [] g =
      some (incLastApply (setShard kv g.Shard
        { maxClientSeq := bumpSeq st.maxClientSeq g.ID g.Seq, database := st.database }),
        { Err := OK, Value := value }) := by
  have hap := Apply_Get_eq kv g st hst
  simp [Get, hcfg, Propose_nil, hap, incLastApply, setShard, hk]

/-- The Get handler on a key absent from the shard, with no value decided by others. -/
theorem Get_nil_absent (kv : DisKV) (g : GetArgs) (st : ShardState)
    (hcfg : g.ConfigNum = kv.config.Num) (hst : kv.shardState g.Shard = some st)
    (hk : mapGet st.database g.Key = none) :
    Get kv [] g =
      some (incLastApply (setShard kv g.Shard
        { maxClientSeq := bumpSeq st.maxClientSeq g.ID g.Seq, database := st.database }),
        { Err := ErrNoKey, Value := "NO KEY" }) := by
  have hap := Apply_Get_eq kv g st hst
  simp [Get, hcfg, Propose_nil, hap, incLastApply, setShard, hk]

/-- The duplicate checks of the handlers read the replica state as it is before
`Propose` catches up, and `Apply` writes whatever the sequence number. On the
replica `exLagging`, which has not yet applied the Append of client 7 decided
for slot 1, the retry `exAppendRetry` (same client and sequence number, newer
`ConfigNum`) is answered `OK` after the value has been appended twice. On the
consumer `exConsumer`, a second shipment with the sender and sequence number of
the one decided for slot 1 is installed over the client write of slot 2. -/
theorem duplicate_met_in_catch_up_applied_again :
    (PutAppend exLagging [exAppendOp] exAppendRetry).map (fun out => out.2) =
        some { Err := OK } ∧
      ((PutAppend exLagging [exAppendOp] exAppendRetry).bind fun out => out.1.shardState 0) =
        some { maxClientSeq := [(7, 1)], database := [("k", "xx")] } ∧
      ((Propose exConsumer [{ Operation := "Update", Value := some (Payload.update exShipFirst) }]
          { Operation := "Put", Value := some (Payload.putAppend exClientPut) }).bind
        fun kv1 => kv1.shardState 0) =
        some { maxClientSeq := [(1, 1), (7, 1)], database := [("k", "w")] } ∧
      ((Update exConsumer
          [{ Operation := "Update", Value := some (Payload.update exShipFirst) },
           { Operation := "Put", Value := some (Payload.putAppend exClientPut) }]
          exShipSecond).bind fun out => out.1.shardState 0) =
        some { maxClientSeq := [(1, 1)], database := [("k", "v"), ("j", "u")] } := by
  decide

/-! ## Claims C1 and C2: `Apply` of Append and Put -/

/-- Claim C1, refuted as stated: on `exReplica` the Append of `"x"` by client 7
with sequence number 1, applied twice in succession, leaves `k = "xx"` in
shard 0, while one application leaves `k = "x"`; the second application has
`seq <= maxClientSeq[clientId]` and still changes the database. -/
theorem Apply_Append_twice_differs :
    ((Apply exReplica exAppendOp).bind fun kv1 => kv1.shardState 0) =
        some { maxClientSeq := [(7, 1)], database := [("k", "x")] } ∧
      ((Apply exReplica exAppendOp).bind fun kv1 =>
          (Apply kv1 exAppendOp).bind fun kv2 => kv2.shardState 0) =
        some { maxClientSeq := [(7, 1)], database := [("k", "xx")] } := by
  decide

/-- Claim C1, amended: for every replica state holding a state for the op's
shard and every Append op, `Apply` sets `database[key]` to the old value (the
empty string when the key is absent) followed by the op's value, whatever the
sequence number; applying the same op a second time appends the value a second
time. -/
theorem Apply_Append_always_appends (kv : DisKV) (args : PutAppendArgs) (st : ShardState)
    (h : kv.shardState args.Shard = some st) :
    ∃ kv1 kv2 st1 st2,
      Apply kv { Operation := "Append", Value := some (Payload.putAppend args) } = some kv1 ∧
      kv1.shardState args.Shard = some st1 ∧
      mapGet st1.database args.Key =
        some ((mapGet st.database args.Key).getD "" ++ args.Value) ∧
      Apply kv1 { Operation := "Append", Value := some (Payload.putAppend args) } = some kv2 ∧
      kv2.shardState args.Shard = some st2 ∧
      mapGet st2.database args.Key =
        some ((mapGet st.database args.Key).getD "" ++ args.Value ++ args.Value) := by
  refine ⟨_, _, _, _, Apply_Append_eq kv args st h, setShard_same _ _ _,
    mapGet_mapSet_same _ _ _, Apply_Append_eq _ args _ (setShard_same _ _ _),
    setShard_same _ _ _, ?_⟩
  simp [mapGet_mapSet_same]

/-- Witness for claim C1, amended: the hypothesis holds on `exReplica` with `exAppendArgs`. -/
theorem Apply_Append_always_appends_witness :
    exReplica.shardState exAppendArgs.Shard = some MakeShardState ∧
      ∃ kv1 kv2 st1 st2,
        Apply exReplica
            { Operation := "Append", Value := some (Payload.putAppend exAppendArgs) } =
          some kv1 ∧
        kv1.shardState exAppendArgs.Shard = some st1 ∧
        mapGet st1.database exAppendArgs.Key =
          some ((mapGet MakeShardState.database exAppendArgs.Key).getD "" ++
            exAppendArgs.Value) ∧
        Apply kv1 { Operation := "Append", Value := some (Payload.putAppend exAppendArgs) } =
          some kv2 ∧
        kv2.shardState exAppendArgs.Shard = some st2 ∧
        mapGet st2.database exAppendArgs.Key =
          some ((mapGet MakeShardState.database exAppendArgs.Key).getD "" ++
            exAppendArgs.Value ++ exAppendArgs.Value) :=
  ⟨by decide, Apply_Append_always_appends exReplica exAppendArgs MakeShardState (by decide)⟩

/-- Claim C2, refuted as stated: on `exWritten`, where client 7 has
`maxClientSeq = 5` and `k = "new"`, the Put of `k = "old"` by client 7 with
sequence number 3 overwrites the key; only `maxClientSeq` stays as it was. -/
theorem Apply_Put_stale_overwrites :
    exWritten.shardState 0 = some { maxClientSeq := [(7, 5)], database := [("k", "new")] } ∧
      exPutArgs.Seq ≤ seqOf [(7, 5)] exPutArgs.ID ∧
      ((Apply exWritten exPutOp).bind fun kv1 => kv1.shardState 0) =
        some { maxClientSeq := [(7, 5)], database := [("k", "old")] } := by
  decide

/-- Claim C2, amended: for every replica state holding a state for the op's
shard and every Put op, `Apply` sets `database[key]` to the op's value whatever
the sequence number, also when `seq <= maxClientSeq[clientId]`, and leaves the
other keys alone; only the update of `maxClientSeq[clientId]` is guarded by
`seq > maxClientSeq[clientId]`, so that entry becomes the maximum of its old
value and `seq`. -/
theorem Apply_Put_always_writes (kv : DisKV) (args : PutAppendArgs) (st : ShardState)
    (h : kv.shardState args.Shard = some st) :
    ∃ kv1 st1,
      Apply kv { Operation := "Put", Value := some (Payload.putAppend args) } = some kv1 ∧
      kv1.shardState args.Shard = some st1 ∧
      mapGet st1.database args.Key = some args.Value ∧
      (∀ k, k ≠ args.Key → mapGet st1.database k = mapGet st.database k) ∧
      seqOf st1.maxClientSeq args.ID = max (seqOf st.maxClientSeq args.ID) args.Seq :=
  ⟨_, _, Apply_Put_eq kv args st h, setShard_same _ _ _, mapGet_mapSet_same _ _ _,
    fun k hk => mapGet_mapSet_other _ _ k _ hk, seqOf_bumpSeq_same _ _ _⟩

/-- Witness for claim C2, amended: the hypothesis holds on `exWritten` with the stale `exPutArgs`.
-/
theorem Apply_Put_always_writes_witness :
    exWritten.shardState exPutArgs.Shard =
        some { maxClientSeq := [(7, 5)], database := [("k", "new")] } ∧
      ∃ kv1 st1,
        Apply exWritten { Operation := "Put", Value := some (Payload.putAppend exPutArgs) } =
          some kv1 ∧
        kv1.shardState exPutArgs.Shard = some st1 ∧
        mapGet st1.database exPutArgs.Key = some exPutArgs.Value ∧
        (∀ k, k ≠ exPutArgs.Key →
          mapGet st1.database k = mapGet [("k", "new")] k) ∧
        seqOf st1.maxClientSeq exPutArgs.ID = max (seqOf [(7, 5)] exPutArgs.ID) exPutArgs.Seq :=
  ⟨by decide, Apply_Put_always_writes exWritten exPutArgs
    { maxClientSeq := [(7, 5)], database := [("k", "new")] } (by decide)⟩

/-! ## Claims C3 and C4: the configuration check of the handlers -/

/-- Claim C3, refuted as stated: `exForeign` is a replica of group 1 at
configuration 1, where every shard belongs to group 2. A Get and an Append for
shard 0 carrying `ConfigNum = 1` are not answered `ErrWrongGroup`: the Get is
answered `ErrNoKey`, the Append is answered `OK` and is applied. -/
theorem handlers_serve_unowned_shard :
    exForeign.config.Shards 0 ≠ exForeign.gid ∧
      exGetArgs.ConfigNum = exForeign.config.Num ∧
      (Get exForeign [] exGetArgs).map (fun out => out.2) =
        some { Err := ErrNoKey, Value := "NO KEY" } ∧
      (PutAppend exForeign [] exAppendArgs).map (fun out => out.2) = some { Err := OK } ∧
      ((PutAppend exForeign [] exAppendArgs).bind fun out => out.1.shardState 0) =
        some { maxClientSeq := [(7, 1)], database := [("k", "x")] } := by
  decide

/-- Claim C3, amended: for every replica state and every Get or PutAppend
request, a reply of the handler is `ErrWrongGroup` exactly when
`args.ConfigNum != config.Num`. The handlers consult neither `config.Shards`
nor the received map: with `args.ConfigNum == config.Num` a request is handled
whoever owns its shard, being answered `OK` or `ErrNoKey` by Get once its
proposal has been applied, and `OK` by PutAppend (at once for a duplicate,
else once its proposal has been applied). -/
theorem handlers_WrongGroup_iff_config (kv : DisKV) (decided : List Op) (gargs : GetArgs)
    (pargs : PutAppendArgs) :
    (∀ kv1 reply, Get kv decided gargs = some (kv1, reply) →
        (reply.Err = ErrWrongGroup ↔ gargs.ConfigNum ≠ kv.config.Num)) ∧
      (∀ kv1 reply, PutAppend kv decided pargs = some (kv1, reply) →
        (reply.Err = ErrWrongGroup ↔ pargs.ConfigNum ≠ kv.config.Num)) ∧
      (gargs.ConfigNum = kv.config.Num → ∀ kv1,
        Propose kv decided { Operation := "Get", Value := some (Payload.get gargs) } =
          some kv1 →
        ∃ reply, Get kv decided gargs = some (kv1, reply) ∧
          (reply.Err = OK ∨ reply.Err = ErrNoKey)) ∧
      (pargs.ConfigNum = kv.config.Num → ∀ st, kv.shardState pargs.Shard = some st →
        (pargs.Seq ≤ seqOf st.maxClientSeq pargs.ID →
          PutAppend kv decided pargs = some (kv, { Err := OK })) ∧
        (¬ pargs.Seq ≤ seqOf st.maxClientSeq pargs.ID → ∀ kv1,
          Propose kv decided
              { Operation := pargs.Op, Value := some (Payload.putAppend pargs) } = some kv1 →
          PutAppend kv decided pargs = some (kv1, { Err := OK }))) := by
  refine ⟨?_, ?_, ?_, ?_⟩
  · intro kv1 reply h
    by_cases hcfg : kv.config.Num = gargs.ConfigNum
    · cases hp : Propose kv decided
          { Operation := "Get", Value := some (Payload.get gargs) } with
      | none => simp [Get, hcfg, hp] at h
      | some kv2 =>
        obtain ⟨r, hr, hor⟩ := Get_after_Propose kv kv2 decided gargs hcfg hp
        rw [hr] at h
        cases h
        constructor
        · intro hw
          rcases hor with ho | ho
          · rw [ho] at hw
            exact absurd hw OK_ne_ErrWrongGroup
          · rw [ho] at hw
            exact absurd hw ErrNoKey_ne_ErrWrongGroup
        · intro hne
          exact absurd hcfg.symm hne
    · simp only [Get, ne_eq, hcfg, not_false_eq_true, if_true] at h
      cases h
      exact ⟨fun _ => fun hh => hcfg hh.symm, fun _ => rfl⟩
  · intro kv1 reply h
    by_cases hcfg : kv.config.Num = pargs.ConfigNum
    · have hne : ¬ pargs.ConfigNum ≠ kv.config.Num := by simp [hcfg]
      have hok : reply.Err = OK := by
        simp only [PutAppend, ne_eq, hcfg, not_true_eq_false, if_false] at h
        split at h
        · cases h
        · split at h
          · cases h; rfl
          · split at h
            · cases h
            · cases h; rfl
      constructor
      · intro hw
        rw [hok] at hw
        exact absurd hw OK_ne_ErrWrongGroup
      · intro hh
        exact absurd hh hne
    · simp only [PutAppend, ne_eq, hcfg, not_false_eq_true, if_true] at h
      cases h
      exact ⟨fun _ => fun hh => hcfg hh.symm, fun _ => rfl⟩
  · intro hcfg kv1 hp
    exact Get_after_Propose kv kv1 decided gargs hcfg.symm hp
  · intro hcfg st hst
    constructor
    · intro hdup
      simp [PutAppend, hcfg, hst, hdup]
    · intro hdup kv1 hp
      simp [PutAppend, hcfg, hst, hdup, hp]

/-- Witness for claim C3, amended, on
`exForeign`: the Get of `exGetArgs` and the Append of `exAppendArgs` are both
proposed and answered, neither with `ErrWrongGroup`. -/
theorem handlers_WrongGroup_iff_config_witness :
    (∃ kv1 reply, Get exForeign [] exGetArgs = some (kv1, reply) ∧
        ¬ reply.Err = ErrWrongGroup) ∧
      (∃ kv1 reply, PutAppend exForeign [] exAppendArgs = some (kv1, reply) ∧
        ¬ reply.Err = ErrWrongGroup) := by
  have hall := handlers_WrongGroup_iff_config exForeign [] exGetArgs exAppendArgs
  obtain ⟨hg, hp, hgr, hpr⟩ := hall
  constructor
  · have hs : (Propose exForeign []
        { Operation := "Get", Value := some (Payload.get exGetArgs) }).isSome = true := by
      decide
    obtain ⟨kv1, hprop⟩ := Option.isSome_iff_exists.mp hs
    obtain ⟨reply, hr, _⟩ := hgr (by decide) kv1 hprop
    exact ⟨kv1, reply, hr, fun hw => ((hg kv1 reply hr).mp hw) (by decide)⟩
  · have hs : (Propose exForeign []
        { Operation := exAppendArgs.Op,
          Value := some (Payload.putAppend exAppendArgs) }).isSome = true := by
      decide
    obtain ⟨kv1, hprop⟩ := Option.isSome_iff_exists.mp hs
    have hr := (hpr (by decide) MakeShardState (by decide)).2 (by decide) kv1 hprop
    exact ⟨kv1, _, hr, fun hw => ((hp kv1 _ hr).mp hw) (by decide)⟩

/-- Claim C4: for every replica state, every list of decided values and every
Get or PutAppend request whose `ConfigNum` differs from `config.Num`, the
handler replies `ErrWrongGroup` and returns the replica state it was given:
nothing is proposed or applied, so every shard's database and `maxClientSeq`,
`lastApply`, `config` and the received map are what they were. -/
theorem handlers_wrong_config (kv : DisKV) (decided : List Op) (gargs : GetArgs)
    (pargs : PutAppendArgs) (hg : gargs.ConfigNum ≠ kv.config.Num)
    (hp : pargs.ConfigNum ≠ kv.config.Num) :
    Get kv decided gargs = some (kv, { Err := ErrWrongGroup, Value := "" }) ∧
      PutAppend kv decided pargs = some (kv, { Err := ErrWrongGroup }) := by
  constructor
  · simp [Get, Ne.symm hg]
  · simp [PutAppend, Ne.symm hp]

/-- Witness for claim C4: the hypotheses hold when requests carrying `ConfigNum = 0` reach
`exReplica`, which is at configuration 1. -/
theorem handlers_wrong_config_witness :
    ({ exGetArgs with ConfigNum := 0 } : GetArgs).ConfigNum ≠ exReplica.config.Num ∧
      ({ exPutArgs with ConfigNum := 0 } : PutAppendArgs).ConfigNum ≠ exReplica.config.Num ∧
      Get exReplica [exAppendOp] { exGetArgs with ConfigNum := 0 } =
        some (exReplica, { Err := ErrWrongGroup, Value := "" }) ∧
      PutAppend exReplica [exAppendOp] { exPutArgs with ConfigNum := 0 } =
        some (exReplica, { Err := ErrWrongGroup }) :=
  ⟨by decide, by decide,
    handlers_wrong_config exReplica [exAppendOp] { exGetArgs with ConfigNum := 0 }
      { exPutArgs with ConfigNum := 0 } (by decide) (by decide)⟩

/-! ## Claims C5 and C6: a request delivered twice -/

/-- Claim C5: for every replica state, every list of decided values met by the
first call and by the second, and every PutAppend request whose `Op` is `"Put"`
or `"Append"`: calling the handler twice with the same request has the outcome
of calling it once, the same reply and the same replica state (hence the same
shard databases and `maxClientSeq` tables), a panic of the first call included.
In particular, when `ConfigNum` matches and `Seq <= maxClientSeq[ID]` on the
request's shard, the handler replies `OK` and returns the state unchanged,
without proposing. -/
theorem PutAppend_twice (kv : DisKV) (decided decided2 : List Op) (args : PutAppendArgs)
    (hop : args.Op = "Put" ∨ args.Op = "Append") :
    ((PutAppend kv decided args).bind fun out => PutAppend out.1 decided2 args) =
        PutAppend kv decided args ∧
      (args.ConfigNum = kv.config.Num → ∀ st, kv.shardState args.Shard = some st →
        args.Seq ≤ seqOf st.maxClientSeq args.ID →
        PutAppend kv decided args = some (kv, { Err := OK })) := by
  constructor
  · by_cases hcfg : kv.config.Num = args.ConfigNum
    · cases hst : kv.shardState args.Shard with
      | none => simp [PutAppend, hcfg, hst]
      | some st =>
        by_cases hdup : args.Seq ≤ seqOf st.maxClientSeq args.ID
        · simp [PutAppend, hcfg, hst, hdup]
        · cases hp : Propose kv decided
              { Operation := args.Op, Value := some (Payload.putAppend args) } with
          | none => simp [PutAppend, hcfg, hst, hdup, hp]
          | some kv1 =>
            have h2 := PutAppend_after_Propose kv kv1 decided decided2 args hop hcfg hp
            have h1 : PutAppend kv decided args = some (kv1, { Err := OK }) := by
              simp [PutAppend, hcfg, hst, hdup, hp]
            rw [h1]
            simpa using h2
    · have h1 : PutAppend kv decided args = some (kv, { Err := ErrWrongGroup }) := by
        simp [PutAppend, hcfg]
      have h2 : PutAppend kv decided2 args = some (kv, { Err := ErrWrongGroup }) := by
        simp [PutAppend, hcfg]
      rw [h1]
      simpa using h2
  · intro hcfg st hst hdup
    simp [PutAppend, hcfg, hst, hdup]

/-- Witness for claim C5: on `exReplica`, with another client's Append
already decided for the next slot, the Put of `exPutArgs` is proposed and
applied by the first call, and the second call changes nothing. -/
theorem PutAppend_twice_witness :
    (exPutArgs.Op = "Put" ∨ exPutArgs.Op = "Append") ∧
      (PutAppend exReplica [exAppendOp] exPutArgs).isSome = true ∧
      (((PutAppend exReplica [exAppendOp] exPutArgs).bind fun out =>
            PutAppend out.1 [exAppendOp] exPutArgs) =
          PutAppend exReplica [exAppendOp] exPutArgs ∧
        (exPutArgs.ConfigNum = exReplica.config.Num → ∀ st,
          exReplica.shardState exPutArgs.Shard = some st →
          exPutArgs.Seq ≤ seqOf st.maxClientSeq exPutArgs.ID →
          PutAppend exReplica [exAppendOp] exPutArgs = some (exReplica, { Err := OK }))) :=
  ⟨by decide, by decide,
    PutAppend_twice exReplica [exAppendOp] [exAppendOp] exPutArgs (by decide)⟩

/-- Claim C6: for every replica state, every list of decided values met by the
first delivery and by the second, and every Update request: delivering the
request to the Update handler twice in a row has the outcome of delivering it
once, the same reply and the same replica state (shard databases,
`maxClientSeq` tables and received flags). Once the first delivery has been
applied the retry is answered `OK` without being proposed again
(`Update_after_Propose`). -/
theorem Update_twice (kv : DisKV) (decided decided2 : List Op) (args : UpdateArgs) :
    ((Update kv decided args).bind fun out => Update out.1 decided2 args) =
      Update kv decided args := by
  cases hst : kv.shardState args.Shard with
  | none => simp [Update, hst]
  | some st =>
    by_cases hdup : args.Seq ≤ seqOf st.maxClientSeq args.ID
    · simp [Update, hst, hdup]
    · by_cases hcfg : kv.config.Num = args.ConfigNum
      · cases hp : Propose kv decided
            { Operation := "Update", Value := some (Payload.update args) } with
        | none => simp [Update, hcfg, hst, hdup, hp]
        | some kv1 =>
          have h2 := Update_after_Propose kv kv1 decided decided2 args hp
          have h1 : Update kv decided args = some (kv1, { Err := OK }) := by
            simp [Update, hcfg, hst, hdup, hp]
          rw [h1]
          simpa using h2
      · have h1 : Update kv decided args = some (kv, { Err := ErrWrongGroup }) := by
          simp [Update, hcfg, hst, hdup]
        have h2 : Update kv decided2 args = some (kv, { Err := ErrWrongGroup }) := by
          simp [Update, hcfg, hst, hdup]
        rw [h1]
        simpa using h2

/-! ## Claims C7, C8 and C9: `Apply` of a shipment -/

/-- Claim C7, refuted as stated: on `exWritten`, where sender 7 has
`maxClientSeq = 5` in shard 0 and `k = "new"`, the Update op `exStaleShipment`
(sender 7, sequence number 5, carrying `k = "old"`) replaces the database. -/
theorem Apply_Update_stale_overwrites :
    exWritten.shardState 0 = some { maxClientSeq := [(7, 5)], database := [("k", "new")] } ∧
      exStaleShipment.Seq ≤ seqOf [(7, 5)] exStaleShipment.ID ∧
      ((Apply exWritten
            { Operation := "Update", Value := some (Payload.update exStaleShipment) }).bind
          fun kv1 => kv1.shardState 0) =
        some { maxClientSeq := [(7, 5)], database := [("k", "old")] } := by
  decide

/-- Claim C7, amended: for every replica state that holds a state for the op's
shard and whose received map is allocated, and for every Update op, `Apply`
replaces the shard's database by the op's database and the shard's
`maxClientSeq` by the op's table, whatever the sequence number, also when
`seq <= maxClientSeq[senderGid]`; in the installed table the entry of
`senderGid` is the maximum of the op's entry and `seq`, the other entries are
the op's. -/
theorem Apply_Update_always_replaces (kv : DisKV) (args : UpdateArgs) (st : ShardState)
    (recv : List (Int × Bool)) (h : kv.shardState args.Shard = some st)
    (hr : kv.isRecieved = some recv) :
    ∃ kv1 st1,
      Apply kv { Operation := "Update", Value := some (Payload.update args) } = some kv1 ∧
      kv1.shardState args.Shard = some st1 ∧
      st1.database = args.Database ∧
      st1.maxClientSeq = bumpSeq args.MaxClientSeq args.ID args.Seq ∧
      seqOf st1.maxClientSeq args.ID = max (seqOf args.MaxClientSeq args.ID) args.Seq ∧
      (∀ id, id ≠ args.ID → seqOf st1.maxClientSeq id = seqOf args.MaxClientSeq id) :=
  ⟨_, _, Apply_Update_eq kv args st recv h hr, setShard_same _ _ _, rfl, rfl,
    seqOf_bumpSeq_same _ _ _, fun id hid => seqOf_bumpSeq_other _ _ id _ hid⟩

/-- Witness for claim C7, amended: the hypotheses hold on `exWritten` with the stale shipment
`exStaleShipment`. -/
theorem Apply_Update_always_replaces_witness :
    exWritten.shardState exStaleShipment.Shard =
        some { maxClientSeq := [(7, 5)], database := [("k", "new")] } ∧
      exWritten.isRecieved = some [] ∧
      ∃ kv1 st1,
        Apply exWritten
            { Operation := "Update", Value := some (Payload.update exStaleShipment) } =
          some kv1 ∧
        kv1.shardState exStaleShipment.Shard = some st1 ∧
        st1.database = exStaleShipment.Database ∧
        st1.maxClientSeq =
          bumpSeq exStaleShipment.MaxClientSeq exStaleShipment.ID exStaleShipment.Seq ∧
        seqOf st1.maxClientSeq exStaleShipment.ID =
          max (seqOf exStaleShipment.MaxClientSeq exStaleShipment.ID) exStaleShipment.Seq ∧
        (∀ id, id ≠ exStaleShipment.ID →
          seqOf st1.maxClientSeq id = seqOf exStaleShipment.MaxClientSeq id) :=
  ⟨by decide, by decide,
    Apply_Update_always_replaces exWritten exStaleShipment
      { maxClientSeq := [(7, 5)], database := [("k", "new")] } [] (by decide) (by decide)⟩

/-- Claim C8, refuted as stated: the producer `exProducer` (group 1,
configuration 1) ships shard 0, whose table is empty; the consumer `exConsumer`
(group 2, configuration 1, `maxClientSeq[1] = 0 < 1`) applies the Update. The
consumer obtains the producer's database, but its table holds the entry
`1 -> 1` that the producer's table does not have. -/
theorem shipment_table_differs :
    exProducer.shardState 0 = some { maxClientSeq := [], database := [("k", "v")] } ∧
      exProducer.config.Num = exConsumer.config.Num ∧
      (Send exProducer 0 exConfigNext).map (fun out => out.1) =
        some { Database := [("k", "v")], MaxClientSeq := [], Shard := 0, ConfigNum := 1,
               Seq := 1, ID := 1 } ∧
      ((Send exProducer 0 exConfigNext).bind fun out =>
          (Apply exConsumer
            { Operation := "Update", Value := some (Payload.update out.1) }).bind
            fun kv1 => kv1.shardState 0) =
        some { maxClientSeq := [(1, 1)], database := [("k", "v")] } := by
  decide

/-- Claim C8, amended: for every producer replica state A holding a state for
shard s and every consumer replica state B that holds a state for s and whose
received map is allocated: if A builds the Update for s as `Send` does and B
applies it with `Apply`, then B's database for s is A's database for s, and B's
`maxClientSeq` for s is A's table in which the entry of A's gid has been raised
to A's `config.Num` (the shipment's seq) if it was smaller; B's table is equal
to A's when A's entry for its own gid is already at least `config.Num`. -/
theorem shipment_installs (A B : DisKV) (newConfig : Config) (s : Int)
    (stA stB : ShardState) (recv : List (Int × Bool))
    (hA : A.shardState s = some stA) (hB : B.shardState s = some stB)
    (hr : B.isRecieved = some recv) :
    ∃ args dest B1 st1,
      Send A s newConfig = some (args, dest) ∧
      Apply B { Operation := "Update", Value := some (Payload.update args) } = some B1 ∧
      B1.shardState s = some st1 ∧
      st1.database = stA.database ∧
      st1.maxClientSeq = bumpSeq stA.maxClientSeq A.gid A.config.Num ∧
      seqOf st1.maxClientSeq A.gid = max (seqOf stA.maxClientSeq A.gid) A.config.Num ∧
      (∀ id, id ≠ A.gid → seqOf st1.maxClientSeq id = seqOf stA.maxClientSeq id) ∧
      (A.config.Num ≤ seqOf stA.maxClientSeq A.gid → st1 = stA) := by
  have hsend : Send A s newConfig =
      some ({ Shard := s, ID := A.gid, Seq := A.config.Num, ConfigNum := A.config.Num,
              Database := stA.database, MaxClientSeq := stA.maxClientSeq },
            newConfig.Groups (newConfig.Shards s)) := by
    simp [Send, hA]
  have hap := Apply_Update_eq B
    { Shard := s, ID := A.gid, Seq := A.config.Num, ConfigNum := A.config.Num,
      Database := stA.database, MaxClientSeq := stA.maxClientSeq } stB recv hB hr
  refine ⟨_, _, _,
    { maxClientSeq := bumpSeq stA.maxClientSeq A.gid A.config.Num, database := stA.database },
    hsend, hap, setShard_same _ _ _, rfl, rfl, seqOf_bumpSeq_same _ _ _,
    fun id hid => seqOf_bumpSeq_other _ _ id _ hid, ?_⟩
  intro hle
  have hb : bumpSeq stA.maxClientSeq A.gid A.config.Num = stA.maxClientSeq := by
    unfold bumpSeq
    rw [if_neg (by omega)]
  rw [hb]

/-- Witness for claim C8, amended: the hypotheses hold on `exProducer` and `exConsumer`. -/
theorem shipment_installs_witness :
    exProducer.shardState 0 = some { maxClientSeq := [], database := [("k", "v")] } ∧
      exConsumer.shardState 0 = some MakeShardState ∧
      exConsumer.isRecieved = some [] ∧
      ∃ args dest B1 st1,
        Send exProducer 0 exConfigNext = some (args, dest) ∧
        Apply exConsumer { Operation := "Update", Value := some (Payload.update args) } =
          some B1 ∧
        B1.shardState 0 = some st1 ∧
        st1.database = [("k", "v")] ∧
        st1.maxClientSeq = bumpSeq [] exProducer.gid exProducer.config.Num ∧
        seqOf st1.maxClientSeq exProducer.gid =
          max (seqOf [] exProducer.gid) exProducer.config.Num ∧
        (∀ id, id ≠ exProducer.gid → seqOf st1.maxClientSeq id = seqOf [] id) ∧
        (exProducer.config.Num ≤ seqOf [] exProducer.gid →
          st1 = { maxClientSeq := [], database := [("k", "v")] }) :=
  ⟨by decide, by decide, by decide,
    shipment_installs exProducer exConsumer exConfigNext 0
      { maxClientSeq := [], database := [("k", "v")] } MakeShardState [] (by decide)
      (by decide) (by decide)⟩

/-- Claim C9, the defect: `StartServer` leaves `isRecieved` nil (only `tick`
allocates it), and `Apply` of an Update op assigns `isRecieved[shard] = true`.
On the replica `StartServer 10 1` the Update op carrying `exBootShipment` (shard
0, sequence number 1, above `maxClientSeq[2] = 0`) therefore panics in `Apply`:
no database is installed and no received flag is set. The same happens when the
shipment reaches that replica through the Update handler, and when a Get makes
the replica catch up with a log whose next decided entry is a shipment. -/
theorem Apply_Update_boot_panics :
    (StartServer 10 1).shardState 0 = some MakeShardState ∧
      exBootShipment.Seq > seqOf MakeShardState.maxClientSeq exBootShipment.ID ∧
      (Apply (StartServer 10 1)
        { Operation := "Update", Value := some (Payload.update exBootShipment) }).isNone = true ∧
      (Update (StartServer 10 1) [] exBootShipment).isNone = true ∧
      (Get (StartServer 10 1)
        [{ Operation := "Update", Value := some (Payload.update exStaleShipment) }]
        { exGetArgs with ConfigNum := 0 }).isNone = true := by
  decide

/-! ## Claim C10: Put, Put, Get on one replica -/

/-- Claim C10: on a replica where every proposal is decided at the next free
slot (no other value is decided: the list of decided values is empty), for
requests of one client on one shard that carry the replica's configuration
number, with `p1.Seq` above the client's recorded `maxClientSeq` and
`p2.Seq > p1.Seq`: the Put `p1` replies `OK` and a Get of its key then replies
`OK` with `p1.Value`; the Put `p2` of the same key after `p1` replies `OK` and a
Get then replies `OK` with `p2.Value`. A Get of a key absent from the shard's
database replies `ErrNoKey`. -/
theorem Put_Put_Get (kv : DisKV) (st : ShardState) (p1 p2 : PutAppendArgs) (g : GetArgs)
    (hst : kv.shardState p1.Shard = some st)
    (hop1 : p1.Op = "Put") (hop2 : p2.Op = "Put")
    (hc1 : p1.ConfigNum = kv.config.Num) (hc2 : p2.ConfigNum = kv.config.Num)
    (hcg : g.ConfigNum = kv.config.Num)
    (hs2 : p2.Shard = p1.Shard) (hsg : g.Shard = p1.Shard)
    (hk2 : p2.Key = p1.Key) (hkg : g.Key = p1.Key) (hid : p2.ID = p1.ID)
    (hseq1 : p1.Seq > seqOf st.maxClientSeq p1.ID) (hseq2 : p2.Seq > p1.Seq) :
    (∃ kv1 kv2 kv3 kv4,
        PutAppend kv [] p1 = some (kv1, { Err := OK }) ∧
        Get kv1 [] g = some (kv2, { Err := OK, Value := p1.Value }) ∧
        PutAppend kv1 [] p2 = some (kv3, { Err := OK }) ∧
        Get kv3 [] g = some (kv4, { Err := OK, Value := p2.Value })) ∧
      (∀ (n : GetArgs) (st0 : ShardState), n.ConfigNum = kv.config.Num →
        kv.shardState n.Shard = some st0 → mapGet st0.database n.Key = none →
        ∃ kv5, Get kv [] n = some (kv5, { Err := ErrNoKey, Value := "NO KEY" })) := by
  constructor
  · have h1 := PutAppend_Put_nil kv p1 st hop1 hc1 hst hseq1
    generalize hkv1 : incLastApply (setShard kv p1.Shard
        { maxClientSeq := bumpSeq st.maxClientSeq p1.ID p1.Seq,
          database := mapSet st.database p1.Key p1.Value }) = kv1 at h1
    have hcfg1 : kv1.config = kv.config := by rw [← hkv1]; rfl
    have hsh1 : kv1.shardState p1.Shard =
        some { maxClientSeq := bumpSeq st.maxClientSeq p1.ID p1.Seq,
               database := mapSet st.database p1.Key p1.Value } := by
      rw [← hkv1]
      exact setShard_same _ _ _
    have hg1 := Get_nil_found kv1 g _ p1.Value (by rw [hcfg1]; exact hcg)
      (by rw [hsg]; exact hsh1) (by rw [hkg]; exact mapGet_mapSet_same _ _ _)
    have hseq2b : p2.Seq > seqOf (bumpSeq st.maxClientSeq p1.ID p1.Seq) p2.ID := by
      rw [hid, seqOf_bumpSeq_same]
      have hm : max (seqOf st.maxClientSeq p1.ID) p1.Seq = p1.Seq := max_eq_right hseq1.le
      omega
    have h2 := PutAppend_Put_nil kv1 p2 _ hop2 (by rw [hcfg1]; exact hc2)
      (by rw [hs2]; exact hsh1) hseq2b
    generalize hkv3 : incLastApply (setShard kv1 p2.Shard
        { maxClientSeq := bumpSeq (bumpSeq st.maxClientSeq p1.ID p1.Seq) p2.ID p2.Seq,
          database := mapSet (mapSet st.database p1.Key p1.Value) p2.Key p2.Value }) = kv3
      at h2
    have hcfg3 : kv3.config = kv.config := by rw [← hkv3, ← hcfg1]; rfl
    have hsh3 : kv3.shardState p2.Shard =
        some { maxClientSeq := bumpSeq (bumpSeq st.maxClientSeq p1.ID p1.Seq) p2.ID p2.Seq,
               database := mapSet (mapSet st.database p1.Key p1.Value) p2.Key p2.Value } := by
      rw [← hkv3]
      exact setShard_same _ _ _
    have hg2 := Get_nil_found kv3 g _ p2.Value (by rw [hcfg3]; exact hcg)
      (by rw [hsg, ← hs2]; exact hsh3) (by rw [hkg, ← hk2]; exact mapGet_mapSet_same _ _ _)
    exact ⟨_, _, _, _, h1, hg1, h2, hg2⟩
  · intro n st0 hcn hsn hkn
    exact ⟨_, Get_nil_absent kv n st0 hcn hsn hkn⟩

/-- Witness for claim C10: on `exReplica`, client 7 puts `k = "old"` with
sequence number 3, then `k = "new"` with sequence number 4, and reads `k`. -/
theorem Put_Put_Get_witness :
    exReplica.shardState exPutArgs.Shard = some MakeShardState ∧
      exPutArgs.Seq > seqOf MakeShardState.maxClientSeq exPutArgs.ID ∧
      ((∃ kv1 kv2 kv3 kv4,
          PutAppend exReplica [] exPutArgs = some (kv1, { Err := OK }) ∧
          Get kv1 [] exGetArgs = some (kv2, { Err := OK, Value := exPutArgs.Value }) ∧
          PutAppend kv1 [] { exPutArgs with Value := "new", Seq := 4 } =
            some (kv3, { Err := OK }) ∧
          Get kv3 [] exGetArgs = some (kv4, { Err := OK, Value := "new" })) ∧
        (∀ (n : GetArgs) (st0 : ShardState), n.ConfigNum = exReplica.config.Num →
          exReplica.shardState n.Shard = some st0 → mapGet st0.database n.Key = none →
          ∃ kv5, Get exReplica [] n = some (kv5, { Err := ErrNoKey, Value := "NO KEY" }))) :=
  ⟨by decide, by decide,
    Put_Put_Get exReplica MakeShardState exPutArgs { exPutArgs with Value := "new", Seq := 4 }
      exGetArgs (by decide) (by decide) (by decide) (by decide) (by decide) (by decide)
      (by decide) (by decide) (by decide) (by decide) (by decide) (by decide) (by decide)⟩

/-- What the loop of `Propose` leaves alone: `config`, `gid` and the set of shard
entries; `lastApply` does not decrease. -/
theorem proposeLoop_frame (op : Op) (decided : List Op) :
    ∀ (seq : Int) (kv kv1 : DisKV), proposeLoop op decided seq kv = some kv1 →
      kv1.config = kv.config ∧ kv1.gid = kv.gid ∧ kv.lastApply ≤ kv1.lastApply ∧
        ∀ s, (kv1.shardState s).isSome = (kv.shardState s).isSome := by
  have hstep : ∀ (seq : Int) (kv kv1 : DisKV) (v : Op), proposeStep kv seq v = some kv1 →
      kv1.config = kv.config ∧ kv1.gid = kv.gid ∧ kv.lastApply ≤ kv1.lastApply ∧
        ∀ s, (kv1.shardState s).isSome = (kv.shardState s).isSome := by
    intro seq kv kv1 v h
    unfold proposeStep at h
    split at h
    · obtain ⟨h1, h2, h3, h4⟩ := Apply_frame kv kv1 v h
      exact ⟨h1, h2, by omega, h4⟩
    · cases h
      exact ⟨rfl, rfl, le_refl _, fun _ => rfl⟩
  induction decided with
  | nil =>
    intro seq kv kv1 h
    exact hstep seq kv kv1 op h
  | cons value rest ih =>
    intro seq kv kv1 h
    simp only [proposeLoop] at h
    cases hs : proposeStep kv seq value with
    | none => simp [hs] at h
    | some kv2 =>
      simp only [hs] at h
      obtain ⟨h1, h2, h3, h4⟩ := hstep seq kv kv2 value hs
      split at h
      · cases h
        exact ⟨h1, h2, h3, h4⟩
      · obtain ⟨g1, g2, g3, g4⟩ := ih (seq + 1) kv2 kv1 h
        exact ⟨g1.trans h1, g2.trans h2, le_trans h3 g3, fun s => (g4 s).trans (h4 s)⟩

/-- What `Propose` leaves alone. -/
theorem Propose_frame (kv kv1 : DisKV) (decided : List Op) (op : Op)
    (h : Propose kv decided op = some kv1) :
    kv1.config = kv.config ∧ kv1.gid = kv.gid ∧ kv.lastApply ≤ kv1.lastApply ∧
      ∀ s, (kv1.shardState s).isSome = (kv.shardState s).isSome :=
  proposeLoop_frame op decided (kv.lastApply + 1) kv kv1 h

/-- `Propose` never lowers `lastApply`. -/
theorem Propose_lastApply_le (kv kv1 : DisKV) (decided : List Op) (op : Op)
    (h : Propose kv decided op = some kv1) : kv.lastApply ≤ kv1.lastApply :=
  (Propose_frame kv kv1 decided op h).2.2.1

/-! ## `tick`: its loops -/

/-- The loops of `tick` visit exactly the indices `0 .. NShards - 1`. -/
theorem mem_shardIndices (NShards s : Int) :
    s ∈ shardIndices NShards ↔ 0 ≤ s ∧ s < NShards := by
  constructor
  · intro h
    obtain ⟨n, hn, hs⟩ := List.mem_map.mp h
    rw [List.mem_range] at hn
    subst hs
    exact ⟨Int.ofNat_nonneg n, Int.lt_toNat.mp hn⟩
  · rintro ⟨h0, h1⟩
    have h := Int.toNat_of_nonneg h0
    refine List.mem_map.mpr ⟨s.toNat, List.mem_range.mpr (Int.lt_toNat.mpr ?_), h⟩
    rw [h]
    exact h1

/-- The flags computed by the first loop of `tick`. -/
theorem classify_eq (kv : DisKV) (newConfig : Config) (l : List Int) :
    ∀ flags : Bool × Bool, classify kv newConfig l flags =
      (flags.1 || l.any (isProduced kv newConfig), flags.2 || l.any (isConsumed kv newConfig)) := by
  induction l with
  | nil => intro flags; simp [classify]
  | cons s rest ih =>
    intro flags
    rw [classify, ih]
    cases h1 : isProduced kv newConfig s <;> cases h2 : isConsumed kv newConfig s <;>
      simp [h1, h2]

/-- The flag `isConsumer` is set exactly when some visited shard is consumed. -/
theorem classify_snd (kv : DisKV) (newConfig : Config) (NShards : Int) :
    (classify kv newConfig (shardIndices NShards) (false, false)).2 = true ↔
      ∃ s, 0 ≤ s ∧ s < NShards ∧ isConsumed kv newConfig s = true := by
  rw [classify_eq]
  simp only [Bool.false_or, List.any_eq_true, mem_shardIndices]
  constructor
  · rintro ⟨s, ⟨h0, h1⟩, h2⟩
    exact ⟨s, h0, h1, h2⟩
  · rintro ⟨s, h0, h1, h2⟩
    exact ⟨s, ⟨h0, h1⟩, h2⟩

/-- The flag `isProducer` is set exactly when some visited shard is produced. -/
theorem classify_fst (kv : DisKV) (newConfig : Config) (NShards : Int) :
    (classify kv newConfig (shardIndices NShards) (false, false)).1 = true ↔
      ∃ s, 0 ≤ s ∧ s < NShards ∧ isProduced kv newConfig s = true := by
  rw [classify_eq]
  simp only [Bool.false_or, List.any_eq_true, mem_shardIndices]
  constructor
  · rintro ⟨s, ⟨h0, h1⟩, h2⟩
    exact ⟨s, h0, h1, h2⟩
  · rintro ⟨s, h0, h1, h2⟩
    exact ⟨s, ⟨h0, h1⟩, h2⟩

/-- The consumer loop ends with `allRecieved` set exactly when every consumed
shard it visits has its received flag set. -/
theorem allRecieved_iff (kv : DisKV) (newConfig : Config) (l : List Int) :
    allRecieved kv newConfig l = true ↔
      ∀ s, s ∈ l → isConsumed kv newConfig s = true → recieved kv s = true := by
  induction l with
  | nil => simp [allRecieved]
  | cons s rest ih =>
    simp only [allRecieved, List.mem_cons]
    cases hc : isConsumed kv newConfig s
    · simp only [Bool.false_eq_true, if_false, ih]
      constructor
      · intro h t ht hct
        rcases ht with rfl | ht
        · rw [hc] at hct; cases hct
        · exact h t ht hct
      · intro h t ht hct
        exact h t (Or.inr ht) hct
    · cases hr : recieved kv s
      · simp only [if_true, Bool.not_false]
        constructor
        · intro h; cases h
        · intro h
          have := h s (Or.inl rfl) hc
          rw [hr] at this
          cases this
      · simp only [if_true, Bool.not_true, Bool.false_eq_true, if_false, ih]
        constructor
        · intro h t ht hct
          rcases ht with rfl | ht
          · exact hr
          · exact h t ht hct
        · intro h t ht hct
          exact h t (Or.inr ht) hct

/-- The producer and consumer tests read only `config` and `gid`. -/
theorem isProduced_congr (kv kv1 : DisKV) (newConfig : Config) (s : Int)
    (hc : kv1.config = kv.config) (hg : kv1.gid = kv.gid) :
    isProduced kv1 newConfig s = isProduced kv newConfig s := by
  simp [isProduced, hc, hg]

/-- The consumer test reads only `config` and `gid`. -/
theorem isConsumed_congr (kv kv1 : DisKV) (newConfig : Config) (s : Int)
    (hc : kv1.config = kv.config) (hg : kv1.gid = kv.gid) :
    isConsumed kv1 newConfig s = isConsumed kv newConfig s := by
  simp [isConsumed, hc, hg]

/-- The reset loop: it touches nothing but the shard states, and a shard state is
replaced by the empty one exactly when the shard is visited and produced. -/
theorem resetLoop_spec (newConfig : Config) (l : List Int) :
    ∀ kv : DisKV,
      (resetLoop newConfig l kv).config = kv.config ∧
      (resetLoop newConfig l kv).gid = kv.gid ∧
      (resetLoop newConfig l kv).lastApply = kv.lastApply ∧
      (resetLoop newConfig l kv).isRecieved = kv.isRecieved ∧
      ∀ s, (resetLoop newConfig l kv).shardState s =
        if s ∈ l ∧ isProduced kv newConfig s = true then some MakeShardState
        else kv.shardState s := by
  induction l with
  | nil => intro kv; simp [resetLoop]
  | cons t rest ih =>
    intro kv
    rw [resetLoop]
    by_cases hp : isProduced kv newConfig t = true
    · simp only [hp, if_true]
      obtain ⟨h1, h2, h3, h4, h5⟩ := ih (setShard kv t MakeShardState)
      refine ⟨h1, h2, h3, h4, ?_⟩
      intro s
      rw [h5 s, isProduced_congr kv (setShard kv t MakeShardState) newConfig s rfl rfl]
      by_cases hs : s = t
      · subst hs
        simp [hp, setShard]
      · simp [List.mem_cons, hs, setShard]
    · simp only [hp, Bool.false_eq_true, if_false]
      obtain ⟨h1, h2, h3, h4, h5⟩ := ih kv
      refine ⟨h1, h2, h3, h4, ?_⟩
      intro s
      rw [h5 s]
      by_cases hs : s = t
      · subst hs
        simp [hp]
      · simp [List.mem_cons, hs]

/-- The promotion: the new configuration, an empty received map, an empty state
for each produced shard `0 .. NShards - 1`, every other shard state as it was. -/
theorem promote_spec (NShards : Int) (kv : DisKV) (newConfig : Config) :
    (promote NShards kv newConfig).config = newConfig ∧
      (promote NShards kv newConfig).isRecieved = some [] ∧
      (promote NShards kv newConfig).gid = kv.gid ∧
      (promote NShards kv newConfig).lastApply = kv.lastApply ∧
      ∀ s, (promote NShards kv newConfig).shardState s =
        if (0 ≤ s ∧ s < NShards) ∧ isProduced kv newConfig s = true then some MakeShardState
        else kv.shardState s := by
  obtain ⟨_, h2, h3, _, h5⟩ := resetLoop_spec newConfig (shardIndices NShards) kv
  refine ⟨rfl, rfl, h2, h3, ?_⟩
  intro s
  have h := h5 s
  by_cases hin : 0 ≤ s ∧ s < NShards
  · have hmem := (mem_shardIndices NShards s).mpr hin
    simp only [hmem, hin, true_and] at h ⊢
    exact h
  · have hmem : ¬ s ∈ shardIndices NShards := fun hm => hin ((mem_shardIndices NShards s).mp hm)
    simp only [hmem, hin, false_and, if_false] at h ⊢
    exact h

/-- The shipments made by the producer loop: one for each produced shard
visited, in order, each built by `Send` from the replica state and
acknowledged. -/
theorem sendLoop_spec (kv : DisKV) (newConfig : Config) (acks : Int → Bool) (l : List Int) :
    ∀ sent, sendLoop kv newConfig acks l = some sent →
      sent.map (fun x => x.1.Shard) = l.filter (isProduced kv newConfig) ∧
      ∀ x, x ∈ sent → Send kv x.1.Shard newConfig = some x ∧ acks x.1.Shard = true := by
  induction l with
  | nil =>
    intro sent h
    simp only [sendLoop, Option.some.injEq] at h
    subst h
    simp
  | cons t rest ih =>
    intro sent h
    rw [sendLoop] at h
    by_cases hp : isProduced kv newConfig t = true
    · simp only [hp, if_true] at h
      cases hs : Send kv t newConfig with
      | none => simp [hs] at h
      | some x =>
        obtain ⟨args, dest⟩ := x
        have hshard : args.Shard = t := by
          unfold Send at hs
          split at hs
          · cases hs
          · simp only [Option.some.injEq, Prod.mk.injEq] at hs
            rw [← hs.1]
        rw [hs] at h
        cases dest with
        | none => simp at h
        | some servers =>
          cases servers with
          | nil => simp at h
          | cons srv more =>
            simp only at h
            by_cases ha : acks t = true
            · simp only [ha, if_true] at h
              cases hr : sendLoop kv newConfig acks rest with
              | none => simp [hr] at h
              | some sent1 =>
                simp only [hr, Option.map_some', Option.some.injEq] at h
                subst h
                obtain ⟨ih1, ih2⟩ := ih sent1 hr
                refine ⟨by simp [List.filter_cons, hp, ih1, hshard], ?_⟩
                intro x hx
                rcases List.mem_cons.mp hx with rfl | hx
                · simp only [hshard]
                  exact ⟨hs, ha⟩
                · exact ih2 x hx
            · simp [ha] at h
    · simp only [hp] at h
      obtain ⟨ih1, ih2⟩ := ih sent h
      refine ⟨by simp [List.filter_cons, hp, ih1], ih2⟩

/-! ## What the handlers and the stages of `tick` leave alone -/

/-- The Get handler leaves `config`, `gid` and the set of shard entries alone. -/
theorem Get_frame (kv kv1 : DisKV) (decided : List Op) (args : GetArgs) (reply : GetReply)
    (h : Get kv decided args = some (kv1, reply)) :
    kv1.config = kv.config ∧ kv1.gid = kv.gid ∧ kv.lastApply ≤ kv1.lastApply ∧
      ∀ s, (kv1.shardState s).isSome = (kv.shardState s).isSome := by
  unfold Get at h
  split at h
  · cases h
    exact ⟨rfl, rfl, le_refl _, fun _ => rfl⟩
  · split at h
    · cases h
    · next kv2 hp =>
      have hf := Propose_frame kv kv2 decided _ hp
      split at h
      · cases h
      · split at h <;> (cases h; exact hf)

/-- The PutAppend handler leaves `config`, `gid` and the set of shard entries
alone. -/
theorem PutAppend_frame (kv kv1 : DisKV) (decided : List Op) (args : PutAppendArgs)
    (reply : PutAppendReply) (h : PutAppend kv decided args = some (kv1, reply)) :
    kv1.config = kv.config ∧ kv1.gid = kv.gid ∧ kv.lastApply ≤ kv1.lastApply ∧
      ∀ s, (kv1.shardState s).isSome = (kv.shardState s).isSome := by
  unfold PutAppend at h
  split at h
  · cases h
    exact ⟨rfl, rfl, le_refl _, fun _ => rfl⟩
  · split at h
    · cases h
    · split at h
      · cases h
        exact ⟨rfl, rfl, le_refl _, fun _ => rfl⟩
      · split at h
        · cases h
        · next kv2 hp =>
          cases h
          exact Propose_frame kv kv1 decided _ hp

/-- The Update handler leaves `config`, `gid` and the set of shard entries
alone. -/
theorem Update_frame (kv kv1 : DisKV) (decided : List Op) (args : UpdateArgs)
    (reply : UpdateReply) (h : Update kv decided args = some (kv1, reply)) :
    kv1.config = kv.config ∧ kv1.gid = kv.gid ∧ kv.lastApply ≤ kv1.lastApply ∧
      ∀ s, (kv1.shardState s).isSome = (kv.shardState s).isSome := by
  unfold Update at h
  split at h
  · cases h
  · split at h
    · cases h
      exact ⟨rfl, rfl, le_refl _, fun _ => rfl⟩
    · split at h
      · cases h
        exact ⟨rfl, rfl, le_refl _, fun _ => rfl⟩
      · split at h
        · cases h
        · next kv2 hp =>
          cases h
          exact Propose_frame kv kv1 decided _ hp

/-- The producer branch of `tick` changes the replica state only through its
Noop proposal. -/
theorem tickProduce_state (NShards : Int) (kv kv1 : DisKV) (newConfig : Config)
    (acks : Int → Bool) (decided : List Op) (isProducer : Bool)
    (sent : List (UpdateArgs × Option (List String)))
    (h : tickProduce NShards kv newConfig acks decided isProducer = some (kv1, sent)) :
    (isProducer = true ∧
        Propose kv decided { Operation := "Get", Value := none } = some kv1 ∧
        sendLoop kv1 newConfig acks (shardIndices NShards) = some sent) ∨
      (isProducer = false ∧ kv1 = kv ∧ sent = []) := by
  unfold tickProduce at h
  cases isProducer with
  | false =>
    simp only [Bool.false_eq_true, if_false, Option.some.injEq, Prod.mk.injEq] at h
    exact Or.inr ⟨rfl, h.1.symm, h.2.symm⟩
  | true =>
    simp only [if_true] at h
    cases hp : Propose kv decided { Operation := "Get", Value := none } with
    | none => simp [hp] at h
    | some kv2 =>
      simp only [hp] at h
      cases hs : sendLoop kv2 newConfig acks (shardIndices NShards) with
      | none => simp [hs] at h
      | some sent1 =>
        simp only [hs, Option.map_some', Option.some.injEq, Prod.mk.injEq] at h
        obtain ⟨h1, h2⟩ := h
        subst h1 h2
        exact Or.inl ⟨rfl, rfl, hs⟩

/-- The producer branch of `tick` leaves `config`, `gid` and the set of shard
entries alone. -/
theorem tickProduce_frame (NShards : Int) (kv kv1 : DisKV) (newConfig : Config)
    (acks : Int → Bool) (decided : List Op) (isProducer : Bool)
    (sent : List (UpdateArgs × Option (List String)))
    (h : tickProduce NShards kv newConfig acks decided isProducer = some (kv1, sent)) :
    kv1.config = kv.config ∧ kv1.gid = kv.gid ∧ kv.lastApply ≤ kv1.lastApply ∧
      ∀ s, (kv1.shardState s).isSome = (kv.shardState s).isSome := by
  rcases tickProduce_state NShards kv kv1 newConfig acks decided isProducer sent h with
    ⟨_, hp, _⟩ | ⟨_, hk, _⟩
  · exact Propose_frame kv kv1 decided _ hp
  · subst hk
    exact ⟨rfl, rfl, le_refl _, fun _ => rfl⟩

/-- The stages of `tick` before the received check: the producer branch, then the
Noop proposal of a consumer. -/
theorem tickCatchUp_state (NShards : Int) (kv kv2 : DisKV) (newConfig : Config)
    (acks : Int → Bool) (decidedP decidedC : List Op)
    (sent : List (UpdateArgs × Option (List String)))
    (h : tickCatchUp NShards kv newConfig acks decidedP decidedC = some (kv2, sent)) :
    ∃ kv1,
      tickProduce NShards kv newConfig acks decidedP
        (classify kv newConfig (shardIndices NShards) (false, false)).1 = some (kv1, sent) ∧
      (((classify kv newConfig (shardIndices NShards) (false, false)).2 = true ∧
          Propose kv1 decidedC { Operation := "Get", Value := none } = some kv2) ∨
        ((classify kv newConfig (shardIndices NShards) (false, false)).2 = false ∧
          kv2 = kv1)) := by
  unfold tickCatchUp at h
  simp only at h
  cases hp : tickProduce NShards kv newConfig acks decidedP
      (classify kv newConfig (shardIndices NShards) (false, false)).1 with
  | none => simp [hp] at h
  | some r =>
    obtain ⟨kv1, sent1⟩ := r
    simp only [hp] at h
    cases hc : (classify kv newConfig (shardIndices NShards) (false, false)).2 with
    | false =>
      simp only [hc, Bool.false_eq_true, if_false, Option.some.injEq, Prod.mk.injEq] at h
      obtain ⟨h1, h2⟩ := h
      subst h1 h2
      exact ⟨kv1, rfl, Or.inr ⟨rfl, rfl⟩⟩
    | true =>
      simp only [hc, if_true] at h
      cases hq : Propose kv1 decidedC { Operation := "Get", Value := none } with
      | none => simp [hq] at h
      | some kv3 =>
        simp only [hq, Option.some.injEq, Prod.mk.injEq] at h
        obtain ⟨h1, h2⟩ := h
        subst h1 h2
        exact ⟨kv1, rfl, Or.inl ⟨rfl, hq⟩⟩

/-- The stages of `tick` before the received check leave `config`, `gid` and the
set of shard entries alone. -/
theorem tickCatchUp_frame (NShards : Int) (kv kv2 : DisKV) (newConfig : Config)
    (acks : Int → Bool) (decidedP decidedC : List Op)
    (sent : List (UpdateArgs × Option (List String)))
    (h : tickCatchUp NShards kv newConfig acks decidedP decidedC = some (kv2, sent)) :
    kv2.config = kv.config ∧ kv2.gid = kv.gid ∧ kv.lastApply ≤ kv2.lastApply ∧
      ∀ s, (kv2.shardState s).isSome = (kv.shardState s).isSome := by
  obtain ⟨kv1, hp, hc⟩ := tickCatchUp_state NShards kv kv2 newConfig acks decidedP decidedC sent h
  obtain ⟨h1, h2, h3, h4⟩ := tickProduce_frame NShards kv kv1 newConfig acks decidedP _ sent hp
  rcases hc with ⟨_, hq⟩ | ⟨_, hk⟩
  · obtain ⟨g1, g2, g3, g4⟩ := Propose_frame kv1 kv2 decidedC _ hq
    exact ⟨g1.trans h1, g2.trans h2, le_trans h3 g3, fun s => (g4 s).trans (h4 s)⟩
  · subst hk
    exact ⟨h1, h2, h3, h4⟩

/-- The two ways in which `tick` ends when the shard master's answer has another
number than `config`: it returns at the received check, leaving the state
reached by the catch-up, or it promotes that state. -/
theorem tick_cases (NShards : Int) (kv kv1 : DisKV) (newConfig : Config)
    (acks : Int → Bool) (decidedP decidedC : List Op)
    (sent : List (UpdateArgs × Option (List String)))
    (hnum : newConfig.Num ≠ kv.config.Num)
    (h : tick NShards kv newConfig acks decidedP decidedC = some (kv1, sent)) :
    ∃ kv2, tickCatchUp NShards kv newConfig acks decidedP decidedC = some (kv2, sent) ∧
      (((classify kv newConfig (shardIndices NShards) (false, false)).2 = true ∧
          allRecieved kv2 newConfig (shardIndices NShards) = false ∧ kv1 = kv2) ∨
        (((classify kv newConfig (shardIndices NShards) (false, false)).2 = false ∨
            allRecieved kv2 newConfig (shardIndices NShards) = true) ∧
          kv1 = promote NShards kv2 newConfig)) := by
  unfold tick at h
  simp only [hnum, ne_eq, not_false_eq_true, if_true] at h
  cases hc : tickCatchUp NShards kv newConfig acks decidedP decidedC with
  | none => simp [hc] at h
  | some r =>
    obtain ⟨kv2, sent2⟩ := r
    simp only [hc] at h
    refine ⟨kv2, ?_⟩
    cases hf : (classify kv newConfig (shardIndices NShards) (false, false)).2 <;>
      cases ha : allRecieved kv2 newConfig (shardIndices NShards) <;>
      simp only [hf, ha, Bool.false_and, Bool.true_and, Bool.not_false, Bool.not_true,
        Bool.false_eq_true, if_false, if_true, Option.some.injEq, Prod.mk.injEq] at h <;>
      obtain ⟨h1, h2⟩ := h <;> subst h1 h2 <;> simp

/-- The producer test, spelled out. -/
theorem isProduced_iff (kv : DisKV) (newConfig : Config) (s : Int) :
    isProduced kv newConfig s = true ↔
      kv.config.Shards s = kv.gid ∧ newConfig.Shards s ≠ kv.gid := by
  simp [isProduced]

/-- The consumer test, spelled out. -/
theorem isConsumed_iff (kv : DisKV) (newConfig : Config) (s : Int) :
    isConsumed kv newConfig s = true ↔
      kv.config.Shards s ≠ 0 ∧ kv.config.Shards s ≠ kv.gid ∧ newConfig.Shards s = kv.gid := by
  simp [isConsumed, and_assoc]

/-! ## Claim C12: only `tick` changes `config` -/

/-- Claim C12: `Apply` of any op, `Propose` and the Get, PutAppend and Update
handlers return a replica state with the `config` they were given, so only
`tick` changes `config`. A `tick` that returns leaves `config` as it was or
replaces it by the shard master's answer; when that answer to `Query(n + 1)` is
numbered `n` or `n + 1`, `config.Num` does not decrease and rises by at most
one. -/
theorem config_changes_only_in_tick (NShards : Int) (kv kv1 : DisKV) :
    (∀ op, Apply kv op = some kv1 → kv1.config = kv.config) ∧
      (∀ decided op, Propose kv decided op = some kv1 → kv1.config = kv.config) ∧
      (∀ decided args reply, Get kv decided args = some (kv1, reply) →
        kv1.config = kv.config) ∧
      (∀ decided args reply, PutAppend kv decided args = some (kv1, reply) →
        kv1.config = kv.config) ∧
      (∀ decided args reply, Update kv decided args = some (kv1, reply) →
        kv1.config = kv.config) ∧
      (∀ newConfig acks decidedP decidedC sent,
        tick NShards kv newConfig acks decidedP decidedC = some (kv1, sent) →
        (kv1.config = kv.config ∨ kv1.config = newConfig) ∧
        (newConfig.Num = kv.config.Num ∨ newConfig.Num = kv.config.Num + 1 →
          kv.config.Num ≤ kv1.config.Num ∧ kv1.config.Num ≤ kv.config.Num + 1)) := by
  refine ⟨fun op h => (Apply_frame kv kv1 op h).1,
    fun decided op h => (Propose_frame kv kv1 decided op h).1,
    fun decided args reply h => (Get_frame kv kv1 decided args reply h).1,
    fun decided args reply h => (PutAppend_frame kv kv1 decided args reply h).1,
    fun decided args reply h => (Update_frame kv kv1 decided args reply h).1, ?_⟩
  intro newConfig acks decidedP decidedC sent h
  have hor : kv1.config = kv.config ∨ kv1.config = newConfig := by
    by_cases hnum : newConfig.Num = kv.config.Num
    · unfold tick at h
      simp only [hnum, ne_eq, not_true_eq_false, if_false, Option.some.injEq,
        Prod.mk.injEq] at h
      rw [← h.1]
      exact Or.inl rfl
    · obtain ⟨kv2, hcu, hcase⟩ :=
        tick_cases NShards kv kv1 newConfig acks decidedP decidedC sent hnum h
      have hf := tickCatchUp_frame NShards kv kv2 newConfig acks decidedP decidedC sent hcu
      rcases hcase with ⟨_, _, hk⟩ | ⟨_, hk⟩
      · rw [hk]
        exact Or.inl hf.1
      · rw [hk]
        exact Or.inr (promote_spec NShards kv2 newConfig).1
  refine ⟨hor, ?_⟩
  intro hq
  rcases hor with hc | hc <;> rw [hc] <;> omega

/-- Witness for claim C12: the shard master answers `exReplica`, which is at
configuration 1, with configuration 2; the tick ships every shard and moves to
configuration 2. -/
theorem config_changes_only_in_tick_witness :
    exConfigNext.Num = exReplica.config.Num + 1 ∧
      (tick 10 exReplica exConfigNext (fun _ => true) [] []).map (fun r => r.1.config.Num) =
        some 2 ∧
      (∀ kv1 sent, tick 10 exReplica exConfigNext (fun _ => true) [] [] = some (kv1, sent) →
        exReplica.config.Num ≤ kv1.config.Num ∧ kv1.config.Num ≤ exReplica.config.Num + 1) :=
  ⟨by decide, by decide, fun kv1 sent h =>
    ((config_changes_only_in_tick 10 exReplica kv1).2.2.2.2.2 exConfigNext (fun _ => true)
      [] [] sent h).2 (Or.inr (by decide))⟩

/-! ## Claims C13 and C14: the received check and the promotion of `tick` -/

/-- Claim C13: let the shard master's answer have another number than `config`,
and let `kv2` be the replica state of `tick` just before the received check
(after the catch-up proposal). If `received[s]` is false in `kv2` for some shard
`s` to be acquired (old `config.Shards[s]` neither 0 nor gid, new
`Shards[s] == gid`), `tick` returns `kv2` itself: `config` is still the old
configuration, and the received map and every shard state are as they were
before the check, no shard being reset. If `received[s]` is true for every such
shard, `tick` promotes `kv2`. Hence a `tick` that returns with the number of the
new configuration found every shard to be acquired received. -/
theorem tick_waits_for_acquired_shards (NShards : Int) (kv kv2 : DisKV) (newConfig : Config)
    (acks : Int → Bool) (decidedP decidedC : List Op)
    (sent : List (UpdateArgs × Option (List String)))
    (hnum : newConfig.Num ≠ kv.config.Num)
    (hcu : tickCatchUp NShards kv newConfig acks decidedP decidedC = some (kv2, sent)) :
    ((∃ s, 0 ≤ s ∧ s < NShards ∧ kv.config.Shards s ≠ 0 ∧ kv.config.Shards s ≠ kv.gid ∧
          newConfig.Shards s = kv.gid ∧ recieved kv2 s = false) →
        tick NShards kv newConfig acks decidedP decidedC = some (kv2, sent) ∧
          kv2.config = kv.config) ∧
      ((∀ s, 0 ≤ s → s < NShards → kv.config.Shards s ≠ 0 → kv.config.Shards s ≠ kv.gid →
          newConfig.Shards s = kv.gid → recieved kv2 s = true) →
        tick NShards kv newConfig acks decidedP decidedC =
          some (promote NShards kv2 newConfig, sent)) ∧
      (∀ kv1 sent1, tick NShards kv newConfig acks decidedP decidedC = some (kv1, sent1) →
        kv1.config.Num = newConfig.Num →
        ∀ s, 0 ≤ s → s < NShards → kv.config.Shards s ≠ 0 → kv.config.Shards s ≠ kv.gid →
          newConfig.Shards s = kv.gid → recieved kv2 s = true) := by
  obtain ⟨hc, hg, _, _⟩ :=
    tickCatchUp_frame NShards kv kv2 newConfig acks decidedP decidedC sent hcu
  have hcons : ∀ s, isConsumed kv2 newConfig s = isConsumed kv newConfig s :=
    fun s => isConsumed_congr kv kv2 newConfig s hc hg
  have hfirst : (∃ s, 0 ≤ s ∧ s < NShards ∧ kv.config.Shards s ≠ 0 ∧
      kv.config.Shards s ≠ kv.gid ∧ newConfig.Shards s = kv.gid ∧ recieved kv2 s = false) →
      tick NShards kv newConfig acks decidedP decidedC = some (kv2, sent) ∧
        kv2.config = kv.config := by
    rintro ⟨s, h0, h1, h2, h3, h4, h5⟩
    have hcs : isConsumed kv newConfig s = true := (isConsumed_iff kv newConfig s).mpr ⟨h2, h3, h4⟩
    have hflag : (classify kv newConfig (shardIndices NShards) (false, false)).2 = true :=
      (classify_snd kv newConfig NShards).mpr ⟨s, h0, h1, hcs⟩
    have hall : allRecieved kv2 newConfig (shardIndices NShards) = false := by
      cases ha : allRecieved kv2 newConfig (shardIndices NShards) with
      | false => rfl
      | true =>
        have := (allRecieved_iff kv2 newConfig _).mp ha s
          ((mem_shardIndices NShards s).mpr ⟨h0, h1⟩) (by rw [hcons]; exact hcs)
        rw [h5] at this
        cases this
    refine ⟨?_, hc⟩
    unfold tick
    simp [hnum, hcu, hflag, hall]
  have hsecond : (∀ s, 0 ≤ s → s < NShards → kv.config.Shards s ≠ 0 →
      kv.config.Shards s ≠ kv.gid → newConfig.Shards s = kv.gid → recieved kv2 s = true) →
      tick NShards kv newConfig acks decidedP decidedC =
        some (promote NShards kv2 newConfig, sent) := by
    intro hall
    have ha : allRecieved kv2 newConfig (shardIndices NShards) = true := by
      rw [allRecieved_iff]
      intro s hs hcs
      rw [hcons] at hcs
      obtain ⟨h2, h3, h4⟩ := (isConsumed_iff kv newConfig s).mp hcs
      obtain ⟨h0, h1⟩ := (mem_shardIndices NShards s).mp hs
      exact hall s h0 h1 h2 h3 h4
    unfold tick
    simp [hnum, hcu, ha]
  refine ⟨hfirst, hsecond, ?_⟩
  intro kv1 sent1 ht hn s h0 h1 h2 h3 h4
  cases hr : recieved kv2 s with
  | true => rfl
  | false =>
    obtain ⟨ht2, hc2⟩ := hfirst ⟨s, h0, h1, h2, h3, h4, hr⟩
    rw [ht2] at ht
    simp only [Option.some.injEq, Prod.mk.injEq] at ht
    rw [← ht.1, hc2] at hn
    exact absurd hn.symm hnum

/-- Witness for claim C13: `exAcquirer` (group 2) is to acquire shard 0 from
group 1 and has not received it; the tick returns the replica as it is. -/
theorem tick_waits_for_acquired_shards_witness :
    exConfigMove.Num ≠ exAcquirer.config.Num ∧
      (tickCatchUp 10 exAcquirer exConfigMove (fun _ => true) [] []).map
          (fun r => (r.1.lastApply, r.2)) = some (1, []) ∧
      (∀ kv2 sent, tickCatchUp 10 exAcquirer exConfigMove (fun _ => true) [] [] =
          some (kv2, sent) →
        tick 10 exAcquirer exConfigMove (fun _ => true) [] [] = some (kv2, sent) ∧
          kv2.config = exAcquirer.config) := by
  refine ⟨by decide, by decide, ?_⟩
  intro kv2 sent hcu
  have hfr := tickCatchUp_frame 10 exAcquirer kv2 exConfigMove (fun _ => true) [] [] sent hcu
  have hrec : recieved kv2 0 = false := by
    have hsome : (tickCatchUp 10 exAcquirer exConfigMove (fun _ => true) [] []).map
        (fun r => recieved r.1 0) = some false := by decide
    rw [hcu] at hsome
    simpa using hsome
  exact (tick_waits_for_acquired_shards 10 exAcquirer kv2 exConfigMove (fun _ => true) [] []
    sent (by decide) hcu).1 ⟨0, by decide, by decide, by decide, by decide, by decide, hrec⟩

/-- Claim C14: whenever `tick` returns with another configuration number than it
started with, `config` is the new configuration, the received map is empty,
every produced shard `s` of `0 .. NShards - 1` (old `config.Shards[s] == gid`,
new `Shards[s] != gid`) has the empty state of `MakeShardState` (empty database,
empty `maxClientSeq`), and the state of every shard that is not produced is
exactly the one it had in `kv2`, the replica state before the reset step. -/
theorem tick_promotion (NShards : Int) (kv kv1 : DisKV) (newConfig : Config)
    (acks : Int → Bool) (decidedP decidedC : List Op)
    (sent : List (UpdateArgs × Option (List String)))
    (h : tick NShards kv newConfig acks decidedP decidedC = some (kv1, sent))
    (hadv : kv1.config.Num ≠ kv.config.Num) :
    ∃ kv2, tickCatchUp NShards kv newConfig acks decidedP decidedC = some (kv2, sent) ∧
      kv1.config = newConfig ∧ kv1.isRecieved = some [] ∧
      MakeShardState = { maxClientSeq := [], database := [] } ∧
      (∀ s, 0 ≤ s → s < NShards → kv.config.Shards s = kv.gid → newConfig.Shards s ≠ kv.gid →
        kv1.shardState s = some MakeShardState) ∧
      (∀ s, ¬ (0 ≤ s ∧ s < NShards ∧ kv.config.Shards s = kv.gid ∧
          newConfig.Shards s ≠ kv.gid) → kv1.shardState s = kv2.shardState s) := by
  have hnum : newConfig.Num ≠ kv.config.Num := by
    intro heq
    unfold tick at h
    simp only [heq, ne_eq, not_true_eq_false, if_false, Option.some.injEq,
      Prod.mk.injEq] at h
    rw [← h.1] at hadv
    exact hadv rfl
  obtain ⟨kv2, hcu, hcase⟩ :=
    tick_cases NShards kv kv1 newConfig acks decidedP decidedC sent hnum h
  obtain ⟨hc, hg, _, _⟩ :=
    tickCatchUp_frame NShards kv kv2 newConfig acks decidedP decidedC sent hcu
  rcases hcase with ⟨_, _, hk⟩ | ⟨_, hk⟩
  · rw [hk, hc] at hadv
    exact absurd rfl hadv
  · obtain ⟨p1, p2, _, _, p5⟩ := promote_spec NShards kv2 newConfig
    rw [← hk] at p1 p2 p5
    refine ⟨kv2, hcu, p1, p2, rfl, ?_, ?_⟩
    · intro s h0 h1 h2 h3
      rw [p5 s, isProduced_congr kv kv2 newConfig s hc hg,
        (isProduced_iff kv newConfig s).mpr ⟨h2, h3⟩]
      simp [h0, h1]
    · intro s hs
      rw [p5 s, isProduced_congr kv kv2 newConfig s hc hg]
      have hneg : ¬ ((0 ≤ s ∧ s < NShards) ∧ isProduced kv newConfig s = true) := by
        rintro ⟨⟨h0, h1⟩, hp⟩
        obtain ⟨h2, h3⟩ := (isProduced_iff kv newConfig s).mp hp
        exact hs ⟨h0, h1, h2, h3⟩
      rw [if_neg hneg]

/-- Witness for claim C14: `exProducer` (group 1, shard 0 holding `k = "v"`)
ticks from configuration 1 to `exConfigMove`, which gives shard 0 to group 2. -/
theorem tick_promotion_witness :
    (tick 10 exProducer exConfigMove (fun _ => true) [] []).map
        (fun r => (r.1.config.Num, r.1.isRecieved, r.1.shardState 0)) =
        some (2, some [], some MakeShardState) ∧
      (∀ kv1 sent, tick 10 exProducer exConfigMove (fun _ => true) [] [] = some (kv1, sent) →
        ∃ kv2, tickCatchUp 10 exProducer exConfigMove (fun _ => true) [] [] =
            some (kv2, sent) ∧
          kv1.config = exConfigMove ∧ kv1.isRecieved = some [] ∧
          MakeShardState = { maxClientSeq := [], database := [] } ∧
          (∀ s, 0 ≤ s → s < 10 → exProducer.config.Shards s = exProducer.gid →
            exConfigMove.Shards s ≠ exProducer.gid → kv1.shardState s = some MakeShardState) ∧
          (∀ s, ¬ (0 ≤ s ∧ s < 10 ∧ exProducer.config.Shards s = exProducer.gid ∧
              exConfigMove.Shards s ≠ exProducer.gid) →
            kv1.shardState s = kv2.shardState s)) := by
  refine ⟨by decide, ?_⟩
  intro kv1 sent h
  have hnum : (tick 10 exProducer exConfigMove (fun _ => true) [] []).map
      (fun r => r.1.config.Num) = some 2 := by decide
  rw [h] at hnum
  have hadv : kv1.config.Num ≠ exProducer.config.Num := by
    simp only [Option.map_some', Option.some.injEq] at hnum
    rw [hnum]
    decide
  exact tick_promotion 10 exProducer kv1 exConfigMove (fun _ => true) [] [] sent h hadv

/-! ## Claims C15 and C16: `Apply` of a Get, of the Noop and of an unknown tag -/

/-- The guarded update of `id` leaves the binding of every other key as it is. -/
theorem mapGet_bumpSeq_other (m : List (Int × Int)) (id id2 seq : Int) (hne : id2 ≠ id) :
    mapGet (bumpSeq m id seq) id2 = mapGet m id2 := by
  unfold bumpSeq
  split
  · exact mapGet_mapSet_other _ _ _ _ hne
  · rfl

/-- Claim C15: for every replica state that holds a state for the op's shard
and every Get op carrying an argument record, `Apply` leaves the database of
that shard unchanged, sets `maxClientSeq[clientId]` on that shard to the maximum
of its old value and `seq`, leaves the entry of every other client unchanged,
and leaves the state (database and `maxClientSeq`) of every other shard
unchanged. -/
theorem Apply_Get_effect (kv : DisKV) (args : GetArgs) (st : ShardState)
    (h : kv.shardState args.Shard = some st) :
    ∃ kv1 st1,
      Apply kv { Operation := "Get", Value := some (Payload.get args) } = some kv1 ∧
      kv1.shardState args.Shard = some st1 ∧
      st1.database = st.database ∧
      seqOf st1.maxClientSeq args.ID = max (seqOf st.maxClientSeq args.ID) args.Seq ∧
      (∀ id, id ≠ args.ID → mapGet st1.maxClientSeq id = mapGet st.maxClientSeq id) ∧
      (∀ s, s ≠ args.Shard → kv1.shardState s = kv.shardState s) :=
  ⟨_, _, Apply_Get_eq kv args st h, setShard_same _ _ _, rfl, seqOf_bumpSeq_same _ _ _,
    fun id hid => mapGet_bumpSeq_other _ _ id _ hid, fun s hs => setShard_other _ _ s _ hs⟩

/-- Witness for claim C15: the hypothesis holds on `exWritten` with `exGetArgs`. -/
theorem Apply_Get_effect_witness :
    exWritten.shardState exGetArgs.Shard =
        some { maxClientSeq := [(7, 5)], database := [("k", "new")] } ∧
      ∃ kv1 st1,
        Apply exWritten { Operation := "Get", Value := some (Payload.get exGetArgs) } =
          some kv1 ∧
        kv1.shardState exGetArgs.Shard = some st1 ∧
        st1.database = [("k", "new")] ∧
        seqOf st1.maxClientSeq exGetArgs.ID = max (seqOf [(7, 5)] exGetArgs.ID) exGetArgs.Seq ∧
        (∀ id, id ≠ exGetArgs.ID → mapGet st1.maxClientSeq id = mapGet [(7, 5)] id) ∧
        (∀ s, s ≠ exGetArgs.Shard → kv1.shardState s = exWritten.shardState s) :=
  ⟨by decide, Apply_Get_effect exWritten exGetArgs
    { maxClientSeq := [(7, 5)], database := [("k", "new")] } (by decide)⟩

/-- Claim C16: for every replica state, `Apply` of the Noop that `tick` proposes
(operation `"Get"`, nil value) and `Apply` of an op whose tag is none of
`"Get"`, `"Put"`, `"Append"`, `"Update"` return the state with `lastApply`
raised by one and nothing else changed: every shard's state, `config` and the
received map are the same. Every `Apply` that returns has raised `lastApply` by
exactly one, and `Propose` never lowers it. -/
theorem Apply_Noop_only_counts (kv : DisKV) (op : Op) :
    Apply kv { Operation := "Get", Value := none } = some (incLastApply kv) ∧
      (op.Operation ≠ "Get" → op.Operation ≠ "Put" → op.Operation ≠ "Append" →
        op.Operation ≠ "Update" → Apply kv op = some (incLastApply kv)) ∧
      (incLastApply kv).shardState = kv.shardState ∧
      (incLastApply kv).config = kv.config ∧
      (incLastApply kv).isRecieved = kv.isRecieved ∧
      (incLastApply kv).lastApply = kv.lastApply + 1 ∧
      (∀ kv1, Apply kv op = some kv1 → kv1.lastApply = kv.lastApply + 1) ∧
      (∀ decided kv1, Propose kv decided op = some kv1 → kv.lastApply ≤ kv1.lastApply) := by
  refine ⟨by simp [Apply, applyCase], ?_, rfl, rfl, rfl, rfl, ?_, ?_⟩
  · intro h1 h2 h3 h4
    simp [Apply, applyCase, h1, h2, h3, h4]
  · intro kv1 h
    exact (Apply_frame kv kv1 op h).2.2.1
  · intro decided kv1 h
    exact Propose_lastApply_le kv kv1 decided op h

/-- Witness for claim C16: the op tagged `"Nop"` has an unrecognised tag. -/
theorem Apply_Noop_only_counts_witness :
    Apply exWritten { Operation := "Nop", Value := some (Payload.get exGetArgs) } =
      some (incLastApply exWritten) :=
  (Apply_Noop_only_counts exWritten
    { Operation := "Nop", Value := some (Payload.get exGetArgs) }).2.1
    (by decide) (by decide) (by decide) (by decide)

/-! ## Claim C17: the slots applied by `Propose` -/

/-- Forgetting the recorded slots, `proposeTrace` is the loop of `Propose`. -/
theorem proposeTrace_fst (op : Op) (decided : List Op) :
    ∀ (seq : Int) (kv : DisKV),
      (proposeTrace op decided seq kv).map (fun r => r.1) = proposeLoop op decided seq kv := by
  induction decided with
  | nil =>
    intro seq kv
    simp only [proposeTrace, proposeLoop, proposeStep]
    split
    · cases Apply kv op <;> rfl
    · rfl
  | cons value rest ih =>
    intro seq kv
    simp only [proposeTrace, proposeLoop, proposeStep]
    by_cases hgt : seq > kv.lastApply
    · simp only [hgt, if_true]
      cases ha : Apply kv value with
      | none => rfl
      | some kv1 =>
        simp only [Option.map_some']
        by_cases hd : DeepEqual (comparedValue kv seq value) op = true
        · simp [hd]
        · simp only [hd]
          rw [← ih (seq + 1) kv1]
          cases proposeTrace op rest (seq + 1) kv1 <;> rfl
    · simp only [hgt, if_false]
      by_cases hd : DeepEqual (comparedValue kv seq value) op = true
      · simp [hd]
      · simp only [hd]
        rw [← ih (seq + 1) kv]
        cases proposeTrace op rest (seq + 1) kv <;> rfl

/-- Successive applications raise `lastApply` by the number of values applied. -/
theorem applyAll_lastApply (vs : List Op) :
    ∀ (kv kv1 : DisKV), applyAll kv vs = some kv1 →
      kv1.lastApply = kv.lastApply + vs.length := by
  induction vs with
  | nil =>
    intro kv kv1 h
    simp only [applyAll] at h
    cases h
    simp
  | cons v rest ih =>
    intro kv kv1 h
    simp only [applyAll] at h
    cases ha : Apply kv v with
    | none => simp [ha] at h
    | some kv2 =>
      simp only [ha] at h
      have h2 := (Apply_frame kv kv2 v ha).2.2.1
      have h3 := ih kv2 kv1 h
      simp only [List.length_cons, Nat.cast_add, Nat.cast_one]
      omega

/-- The loop of `Propose`, started at slot `lastApply + 1` on decided values of
which `value` is the first that `Apply` leaves deeply equal to `op`: every value
up to `value` is applied, each at the next slot. -/
theorem proposeTrace_first_match (op value : Op) (post : List Op)
    (hval : DeepEqual (valueAfterApply value) op = true) (pre : List Op) :
    ∀ (seq : Int) (kv : DisKV), seq = kv.lastApply + 1 →
      (∀ v, v ∈ pre → DeepEqual (valueAfterApply v) op = false) →
      proposeTrace op (pre ++ value :: post) seq kv =
        (applyAll kv (pre ++ [value])).map fun kv1 => (kv1, slotsFrom seq (pre ++ [value])) := by
  induction pre with
  | nil =>
    intro seq kv hseq _
    have hgt : seq > kv.lastApply := by omega
    simp only [List.nil_append, proposeTrace, comparedValue, hgt, if_true, applyAll, slotsFrom]
    cases ha : Apply kv value with
    | none => rfl
    | some kv1 => simp [hval]
  | cons v rest ih =>
    intro seq kv hseq hpre
    have hgt : seq > kv.lastApply := by omega
    have hv : DeepEqual (valueAfterApply v) op = false := hpre v (List.mem_cons_self _ _)
    simp only [List.cons_append, proposeTrace, comparedValue, hgt, if_true, applyAll, slotsFrom]
    cases ha : Apply kv v with
    | none => rfl
    | some kv1 =>
      have hl := (Apply_frame kv kv1 v ha).2.2.1
      simp only [Option.map_some', hv, List.append_eq, Bool.false_eq_true, if_false]
      rw [ih (seq + 1) kv1 (by omega) (fun w hw => hpre w (List.mem_cons_of_mem _ hw))]
      cases applyAll kv1 (rest ++ [value]) <;> simp

/-- The loop of `Propose`, started at slot `lastApply + 1` on decided values none
of which `Apply` leaves deeply equal to `op`: every value is applied, each at
the next slot, then `op` at the first free slot. -/
theorem proposeTrace_free_slot (op : Op) (decided : List Op) :
    ∀ (seq : Int) (kv : DisKV), seq = kv.lastApply + 1 →
      (∀ v, v ∈ decided → DeepEqual (valueAfterApply v) op = false) →
      proposeTrace op decided seq kv =
        (applyAll kv (decided ++ [op])).map fun kv1 => (kv1, slotsFrom seq (decided ++ [op])) := by
  induction decided with
  | nil =>
    intro seq kv hseq _
    have hgt : seq > kv.lastApply := by omega
    simp only [List.nil_append, proposeTrace, hgt, if_true, applyAll, slotsFrom]
    cases ha : Apply kv op with
    | none => rfl
    | some kv1 => simp
  | cons v rest ih =>
    intro seq kv hseq hpre
    have hgt : seq > kv.lastApply := by omega
    have hv : DeepEqual (valueAfterApply v) op = false := hpre v (List.mem_cons_self _ _)
    simp only [List.cons_append, proposeTrace, comparedValue, hgt, if_true, applyAll, slotsFrom]
    cases ha : Apply kv v with
    | none => rfl
    | some kv1 =>
      have hl := (Apply_frame kv kv1 v ha).2.2.1
      simp only [Option.map_some', hv, List.append_eq, Bool.false_eq_true, if_false]
      rw [ih (seq + 1) kv1 (by omega) (fun w hw => hpre w (List.mem_cons_of_mem _ hw))]
      cases applyAll kv1 (rest ++ [op]) <;> simp

/-- Against an op that is not tagged `"Update"`, a decided value compares after
`Apply` as it does before: `Apply` writes to the value only when the value is
tagged `"Update"`, and then the tags differ. -/
theorem DeepEqual_valueAfterApply_of_ne_Update (value op : Op) (h : op.Operation ≠ "Update") :
    DeepEqual (valueAfterApply value) op = DeepEqual value op := by
  rcases valueAfterApply_cases value with he | ⟨a, hv, he⟩
  · rw [he]
  · have hne : ¬ "Update" = op.Operation := fun e => h e.symm
    rw [he, hv]
    simp [DeepEqual, hne]

/-- The slots applied by the loop of `Propose` on a replica with `lastApply = a`.
Let the values decided for the slots `a + 1`, `a + 2`, ... be `pre`, then
`value`, then `post`, where `value` is the first that `Apply` leaves deeply
equal to `op`, at slot `k = a + |pre| + 1`. Then `Propose(op)` makes exactly
the calls `Apply` of the values of the slots `a + 1, ..., k`, once each and in
increasing slot order, and returns with `lastApply = k`. At the start of each
iteration the slot is `lastApply + 1`: the state reached after `i` applications
has `lastApply = a + i`. When `Apply` leaves no decided value deeply equal to
`op`, the same holds with `op` itself at the first free slot. -/
theorem proposeTrace_in_slot_order (kv : DisKV) (op value : Op) (pre post : List Op)
    (hpre : ∀ v, v ∈ pre → DeepEqual (valueAfterApply v) op = false)
    (hval : DeepEqual (valueAfterApply value) op = true) :
    proposeTrace op (pre ++ value :: post) (kv.lastApply + 1) kv =
        (applyAll kv (pre ++ [value])).map
          (fun kv1 => (kv1, slotsFrom (kv.lastApply + 1) (pre ++ [value]))) ∧
      Propose kv (pre ++ value :: post) op = applyAll kv (pre ++ [value]) ∧
      (∀ kv1, Propose kv (pre ++ value :: post) op = some kv1 →
        kv1.lastApply = kv.lastApply + (pre.length + 1)) ∧
      (∀ (i : Nat) (kvi : DisKV), applyAll kv ((pre ++ [value]).take i) = some kvi →
        kvi.lastApply + 1 = kv.lastApply + 1 + ((pre ++ [value]).take i).length) ∧
      (∀ decided, (∀ v, v ∈ decided → DeepEqual (valueAfterApply v) op = false) →
        proposeTrace op decided (kv.lastApply + 1) kv =
          (applyAll kv (decided ++ [op])).map
            (fun kv1 => (kv1, slotsFrom (kv.lastApply + 1) (decided ++ [op])))) := by
  have htrace := proposeTrace_first_match op value post hval pre (kv.lastApply + 1) kv rfl hpre
  have hprop : Propose kv (pre ++ value :: post) op = applyAll kv (pre ++ [value]) := by
    unfold Propose
    rw [← proposeTrace_fst, htrace]
    cases applyAll kv (pre ++ [value]) <;> rfl
  refine ⟨htrace, hprop, ?_, ?_, ?_⟩
  · intro kv1 h
    rw [hprop] at h
    have hl := applyAll_lastApply _ kv kv1 h
    simp only [List.length_append, List.length_singleton, Nat.cast_add, Nat.cast_one] at hl
    omega
  · intro i kvi h
    have hl := applyAll_lastApply _ kv kvi h
    omega
  · intro decided hdec
    exact proposeTrace_free_slot op decided (kv.lastApply + 1) kv rfl hdec

/-- For an op that is not tagged `"Update"` (a Get, Put or Append of a client, the
Noop of `tick`), the loop of `Propose` stops at the first decided value that is
deeply equal to `op` as decided: the values of the slots `a + 1, ..., k` are
applied once each in slot order and `lastApply = k` on return. -/
theorem Propose_stops_at_first_equal (kv : DisKV) (op value : Op) (pre post : List Op)
    (hop : op.Operation ≠ "Update")
    (hpre : ∀ v, v ∈ pre → DeepEqual v op = false) (hval : DeepEqual value op = true) :
    proposeTrace op (pre ++ value :: post) (kv.lastApply + 1) kv =
        (applyAll kv (pre ++ [value])).map
          (fun kv1 => (kv1, slotsFrom (kv.lastApply + 1) (pre ++ [value]))) ∧
      Propose kv (pre ++ value :: post) op = applyAll kv (pre ++ [value]) ∧
      (∀ kv1, Propose kv (pre ++ value :: post) op = some kv1 →
        kv1.lastApply = kv.lastApply + (pre.length + 1)) := by
  have h := proposeTrace_in_slot_order kv op value pre post
    (fun v hv => by rw [DeepEqual_valueAfterApply_of_ne_Update v op hop]; exact hpre v hv)
    (by rw [DeepEqual_valueAfterApply_of_ne_Update value op hop]; exact hval)
  exact ⟨h.1, h.2.1, h.2.2.1⟩

/-- Claim C17, broken by the code for a shipment: the consumer `exConsumer` has
`lastApply = 0`, its Update handler proposes the shipment `exShipOp`, and the
log holds the same shipment, decided through another replica, at slot 1 and
the client Put `exClientPutOp` at slot 2. The value of slot 1 is deeply equal
to the op as decided, so `k = 1`, and applying slot 1 alone would leave
`lastApply = 1`. But `Apply` writes the entry `1 -> 1` into the table of the
decided value, which then differs from the op: the loop applies slot 1, slot 2
and the op again at slot 3, returns with `lastApply = 3`, and the second
install has overwritten the client write `k = "w"` of slot 2. The Update
handler answers `OK` after these three applications. A client Put run through
the same log stops at its slot 2. -/
theorem Propose_runs_past_equal_shipment :
    exConsumer.lastApply = 0 ∧
      DeepEqual exShipOp exShipOp = true ∧
      (applyAll exConsumer [exShipOp]).map (fun kv1 => kv1.lastApply) = some 1 ∧
      valueAfterApply exShipOp =
        { Operation := "Update",
          Value := some (Payload.update { exShipFirst with MaxClientSeq := [(1, 1)] }) } ∧
      DeepEqual (valueAfterApply exShipOp) exShipOp = false ∧
      (proposeTrace exShipOp [exShipOp, exClientPutOp] (exConsumer.lastApply + 1)
          exConsumer).map (fun r => r.2) =
        some [(1, exShipOp), (2, exClientPutOp), (3, exShipOp)] ∧
      (Propose exConsumer [exShipOp, exClientPutOp] exShipOp).map (fun kv1 => kv1.lastApply) =
        some 3 ∧
      ((applyAll exConsumer [exShipOp, exClientPutOp]).bind fun kv1 => kv1.shardState 0) =
        some { maxClientSeq := [(1, 1), (7, 1)], database := [("k", "w")] } ∧
      ((Propose exConsumer [exShipOp, exClientPutOp] exShipOp).bind
          fun kv1 => kv1.shardState 0) =
        some { maxClientSeq := [(1, 1)], database := [("k", "v")] } ∧
      (Update exConsumer [exShipOp, exClientPutOp] exShipFirst).map
          (fun out => (out.2, out.1.lastApply)) = some ({ Err := OK }, 3) ∧
      (proposeTrace exClientPutOp [exShipOp, exClientPutOp, exShipOp]
          (exConsumer.lastApply + 1) exConsumer).map (fun r => r.2) =
        some [(1, exShipOp), (2, exClientPutOp)] := by
  decide

/-! ## Claim C19: the sleeps of `Wait` -/

/-- The sleep doubles at each of the first twenty undecided polls. -/
theorem sleepTime_doubling (n : Nat) (hn : n ≤ 20) : sleepTime n = 10000 * 2 ^ n := by
  induction n with
  | zero => simp [sleepTime, Microsecond]
  | succ k ih =>
    have hk := ih (by omega)
    have hlt : sleepTime k < 10 * Second := by
      rw [hk]
      have hpow : (2 : Int) ^ k ≤ 2 ^ 19 := pow_le_pow_right₀ (by norm_num) (by omega)
      simp only [Second]
      norm_num at hpow ⊢
      omega
    simp only [sleepTime, hlt, if_true]
    rw [hk, pow_succ]
    ring

/-- From the twentieth undecided poll on the sleep stays at `10485760000` ns. -/
theorem sleepTime_capped (n : Nat) (hn : 20 ≤ n) : sleepTime n = 10485760000 := by
  induction n with
  | zero => omega
  | succ k ih =>
    by_cases hk : k = 19
    · subst hk
      rw [sleepTime_doubling 20 (le_refl _)]
      norm_num
    · have h := ih (by omega)
      simp only [sleepTime, h, Second]
      norm_num

/-- Claim C19, refuted as stated: after twenty undecided polls the variable
`sleepTime` is `10485760000` ns, above `10 * time.Second`: the doubling made
at `5242880000` ns, which is below ten seconds, passes the ten seconds. -/
theorem sleepTime_exceeds_ten_seconds :
    sleepTime 19 = 5242880000 ∧ sleepTime 19 < 10 * Second ∧
      sleepTime 20 = 10485760000 ∧ 10 * Second < sleepTime 20 := by
  have h19 := sleepTime_doubling 19 (by norm_num)
  have h20 := sleepTime_doubling 20 (by norm_num)
  norm_num at h19 h20
  refine ⟨h19, ?_, h20, ?_⟩
  · rw [h19]; simp [Second]
  · rw [h20]; simp [Second]

/-- Claim C19, amended: in `Wait` the sleep between two Status polls starts at
10 microseconds and doubles after each undecided poll for as long as it is
below 10 seconds: after `n` undecided polls it is `10 µs * 2 ^ min n 20`.
For every number of undecided polls it is at most `10485760000` ns
(10.48576 s), a value it keeps from the twentieth undecided poll on. -/
theorem sleepTime_bound (n : Nat) :
    sleepTime 0 = 10 * Microsecond ∧
      sleepTime n = 10 * Microsecond * 2 ^ min n 20 ∧
      (sleepTime n < 10 * Second → sleepTime (n + 1) = 2 * sleepTime n) ∧
      (¬ sleepTime n < 10 * Second → sleepTime (n + 1) = sleepTime n) ∧
      sleepTime n ≤ 10485760000 := by
  have hclosed : sleepTime n = 10 * Microsecond * 2 ^ min n 20 := by
    by_cases hn : n ≤ 20
    · rw [sleepTime_doubling n hn, min_eq_left hn]
      simp [Microsecond]
    · rw [sleepTime_capped n (by omega), min_eq_right (by omega)]
      simp [Microsecond]
  refine ⟨rfl, hclosed, ?_, ?_, ?_⟩
  · intro h
    simp only [sleepTime, h, if_true]
    ring
  · intro h
    simp only [sleepTime, h, if_false]
  · by_cases hn : n ≤ 20
    · rw [sleepTime_doubling n hn]
      have hpow : (2 : Int) ^ n ≤ 2 ^ 20 := pow_le_pow_right₀ (by norm_num) hn
      norm_num at hpow ⊢
      omega
    · rw [sleepTime_capped n (by omega)]

/-- Witness for claim C19, amended: the first sleep is below ten seconds and the
second is twice as long; the sleeps of a run of `Wait` with three undecided
polls are 10, 20 and 40 microseconds. -/
theorem sleepTime_bound_witness :
    sleepTime 0 < 10 * Second ∧ sleepTime 1 = 2 * sleepTime 0 ∧
      Wait [none, none, none, some exAppendOp] = some (exAppendOp, [10000, 20000, 40000]) :=
  ⟨by decide, (sleepTime_bound 0).2.2.1 (by decide), by decide⟩

/-! ## Claim C18: the shipments of `tick` -/

/-- The request built by `Send` and its destination. -/
theorem Send_spec (kv : DisKV) (shard : Int) (newConfig : Config)
    (x : UpdateArgs × Option (List String)) (h : Send kv shard newConfig = some x) :
    ∃ st, kv.shardState shard = some st ∧
      x.1 = { Shard := shard, ID := kv.gid, Seq := kv.config.Num, ConfigNum := kv.config.Num,
              Database := st.database, MaxClientSeq := st.maxClientSeq } ∧
      x.2 = newConfig.Groups (newConfig.Shards shard) := by
  unfold Send at h
  cases hst : kv.shardState shard with
  | none => simp [hst] at h
  | some st =>
    simp only [hst, Option.some.injEq] at h
    subst h
    exact ⟨st, rfl, rfl, rfl⟩

/-- Claim C18: when the producer branch of `tick` returns the replica state `kv1`
and the list `sent` of the shipments made, the shards shipped are exactly the
shards `s` of `0 .. NShards - 1` with `config.Shards[s] == gid` and
`newConfig.Shards[s] != gid`, once each in increasing order. If anything was
shipped, the Noop proposal had returned, with the state `kv1`; each shipped
Update carries its shard, `ID = gid`, `Seq = ConfigNum =` the current
(pre-transition) `config.Num`, and the database and `maxClientSeq` that the
shard has in `kv1`, and is addressed to the servers
`newConfig.Groups[newConfig.Shards[s]]`. The shipments a `tick` returns are
those of its producer branch. -/
theorem tick_ships_produced_shards (NShards : Int) (kv kv1 : DisKV) (newConfig : Config)
    (acks : Int → Bool) (decidedP : List Op)
    (sent : List (UpdateArgs × Option (List String)))
    (h : tickProduce NShards kv newConfig acks decidedP
      (classify kv newConfig (shardIndices NShards) (false, false)).1 = some (kv1, sent)) :
    sent.map (fun x => x.1.Shard) = (shardIndices NShards).filter (isProduced kv newConfig) ∧
      (∀ s, s ∈ sent.map (fun x => x.1.Shard) ↔
        0 ≤ s ∧ s < NShards ∧ kv.config.Shards s = kv.gid ∧ newConfig.Shards s ≠ kv.gid) ∧
      (∀ x, x ∈ sent →
        Propose kv decidedP { Operation := "Get", Value := none } = some kv1 ∧
        ∃ st, kv1.shardState x.1.Shard = some st ∧
          x.1.ID = kv.gid ∧ x.1.Seq = kv.config.Num ∧ x.1.ConfigNum = kv.config.Num ∧
          x.1.Database = st.database ∧ x.1.MaxClientSeq = st.maxClientSeq ∧
          x.2 = newConfig.Groups (newConfig.Shards x.1.Shard)) ∧
      (∀ decidedC kv2 sent2, newConfig.Num ≠ kv.config.Num →
        tick NShards kv newConfig acks decidedP decidedC = some (kv2, sent2) →
        sent2 = sent) := by
  have hshards : sent.map (fun x => x.1.Shard) =
      (shardIndices NShards).filter (isProduced kv newConfig) ∧
      ∀ x, x ∈ sent →
        Propose kv decidedP { Operation := "Get", Value := none } = some kv1 ∧
        Send kv1 x.1.Shard newConfig = some x := by
    rcases tickProduce_state NShards kv kv1 newConfig acks decidedP _ sent h with
      ⟨hflag, hp, hs⟩ | ⟨hflag, _, hsent⟩
    · obtain ⟨hc, hg, _, _⟩ := Propose_frame kv kv1 decidedP _ hp
      obtain ⟨h1, h2⟩ := sendLoop_spec kv1 newConfig acks (shardIndices NShards) sent hs
      refine ⟨?_, fun x hx => ⟨hp, (h2 x hx).1⟩⟩
      rw [h1]
      apply List.filter_congr
      intro s _
      exact isProduced_congr kv kv1 newConfig s hc hg
    · subst hsent
      refine ⟨?_, fun x hx => absurd hx (List.not_mem_nil x)⟩
      have hnone : ∀ s, s ∈ shardIndices NShards → isProduced kv newConfig s = false := by
        intro s hs
        cases hps : isProduced kv newConfig s with
        | false => rfl
        | true =>
          obtain ⟨h0, h1⟩ := (mem_shardIndices NShards s).mp hs
          have := (classify_fst kv newConfig NShards).mpr ⟨s, h0, h1, hps⟩
          rw [hflag] at this
          cases this
      symm
      simp only [List.map_nil, List.filter_eq_nil_iff]
      intro s hs
      rw [hnone s hs]
      simp
  obtain ⟨hmap, hsend⟩ := hshards
  refine ⟨hmap, ?_, ?_, ?_⟩
  · intro s
    rw [hmap, List.mem_filter, mem_shardIndices, isProduced_iff]
    constructor
    · rintro ⟨⟨h0, h1⟩, h2, h3⟩
      exact ⟨h0, h1, h2, h3⟩
    · rintro ⟨h0, h1, h2, h3⟩
      exact ⟨⟨h0, h1⟩, h2, h3⟩
  · intro x hx
    obtain ⟨hp, hs⟩ := hsend x hx
    obtain ⟨hc, hg, _, _⟩ := Propose_frame kv kv1 decidedP _ hp
    obtain ⟨st, hst, hx1, hx2⟩ := Send_spec kv1 x.1.Shard newConfig x hs
    refine ⟨hp, st, hst, ?_, ?_, ?_, ?_, ?_, hx2⟩
    · rw [hx1]; exact hg
    · rw [hx1, hc]
    · rw [hx1, hc]
    · rw [hx1]
    · rw [hx1]
  · intro decidedC kv2 sent2 hnum ht
    obtain ⟨kv3, hcu, _⟩ :=
      tick_cases NShards kv kv2 newConfig acks decidedP decidedC sent2 hnum ht
    obtain ⟨kv4, hp4, _⟩ :=
      tickCatchUp_state NShards kv kv3 newConfig acks decidedP decidedC sent2 hcu
    rw [h] at hp4
    simp only [Option.some.injEq, Prod.mk.injEq] at hp4
    exact hp4.2.symm

/-- Witness for claim C18: `exProducer` (group 1, configuration 1, shard 0
holding `k = "v"`) meets `exConfigMove`, which gives shard 0 to group 2: its
producer branch ships shard 0, and only shard 0, to the servers of group 2. -/
theorem tick_ships_produced_shards_witness :
    tickProduce 10 exProducer exConfigMove (fun _ => true) []
        (classify exProducer exConfigMove (shardIndices 10) (false, false)).1 =
        some (incLastApply exProducer, [(exShipFirst, some ["s2"])]) ∧
      [(exShipFirst, some ["s2"])].map (fun x => x.1.Shard) =
        (shardIndices 10).filter (isProduced exProducer exConfigMove) := by
  have hp : Propose exProducer [] { Operation := "Get", Value := none } =
      some (incLastApply exProducer) := by
    rw [Propose_nil]
    simp [Apply, applyCase]
  have hflag : (classify exProducer exConfigMove (shardIndices 10) (false, false)).1 = true := by
    decide
  have hs : sendLoop (incLastApply exProducer) exConfigMove (fun _ => true) (shardIndices 10) =
      some [(exShipFirst, some ["s2"])] := by
    decide
  have h : tickProduce 10 exProducer exConfigMove (fun _ => true) []
      (classify exProducer exConfigMove (shardIndices 10) (false, false)).1 =
      some (incLastApply exProducer, [(exShipFirst, some ["s2"])]) := by
    unfold tickProduce
    rw [hflag]
    simp [hp, hs]
  exact ⟨h, (tick_ships_produced_shards 10 exProducer (incLastApply exProducer) exConfigMove
    (fun _ => true) [] [(exShipFirst, some ["s2"])] h).1⟩

/-! ## Claim C20: every shard index has a state -/

/-- An operation that creates or removes no shard entry keeps the invariant. -/
theorem hasAllShards_of_isSome (NShards : Int) (kv kv1 : DisKV)
    (h : ∀ s, (kv1.shardState s).isSome = (kv.shardState s).isSome)
    (hinv : hasAllShards NShards kv) : hasAllShards NShards kv1 := by
  intro s h0 h1
  rw [h s]
  exact hinv s h0 h1

/-- The promotion of `tick` keeps the invariant. -/
theorem hasAllShards_promote (NShards : Int) (kv : DisKV) (newConfig : Config)
    (hinv : hasAllShards NShards kv) : hasAllShards NShards (promote NShards kv newConfig) := by
  intro s h0 h1
  rw [(promote_spec NShards kv newConfig).2.2.2.2 s]
  split
  · rfl
  · exact hinv s h0 h1

/-- Under the invariant, a Get, Put or Append op for a shard of `0 .. NShards - 1`
is applied without a panic, and an Update op for such a shard is applied
without a panic exactly when the received map is allocated. -/
theorem Apply_in_range (NShards : Int) (kv : DisKV) (hinv : hasAllShards NShards kv) :
    (∀ args : GetArgs, 0 ≤ args.Shard → args.Shard < NShards →
        (Apply kv { Operation := "Get", Value := some (Payload.get args) }).isSome = true) ∧
      (∀ args : PutAppendArgs, 0 ≤ args.Shard → args.Shard < NShards →
        (Apply kv { Operation := "Put", Value := some (Payload.putAppend args) }).isSome = true ∧
        (Apply kv { Operation := "Append",
                    Value := some (Payload.putAppend args) }).isSome = true) ∧
      (∀ args : UpdateArgs, 0 ≤ args.Shard → args.Shard < NShards →
        (Apply kv { Operation := "Update", Value := some (Payload.update args) }).isSome =
          kv.isRecieved.isSome) := by
  refine ⟨?_, ?_, ?_⟩
  · intro args h0 h1
    obtain ⟨st, hst⟩ := Option.isSome_iff_exists.mp (hinv args.Shard h0 h1)
    rw [Apply_Get_eq kv args st hst]
    rfl
  · intro args h0 h1
    obtain ⟨st, hst⟩ := Option.isSome_iff_exists.mp (hinv args.Shard h0 h1)
    rw [Apply_Put_eq kv args st hst, Apply_Append_eq kv args st hst]
    exact ⟨rfl, rfl⟩
  · intro args h0 h1
    obtain ⟨st, hst⟩ := Option.isSome_iff_exists.mp (hinv args.Shard h0 h1)
    cases hr : kv.isRecieved with
    | none => simp [Apply, applyCase, hr]
    | some recv =>
      rw [Apply_Update_eq kv args st recv hst hr]
      rfl

/-- Under the invariant, a handler called for a shard of `0 .. NShards - 1`
returns whenever the `Propose` it makes returns: its own reads of
`shardState[args.Shard]` find an entry. -/
theorem handlers_in_range (NShards : Int) (kv : DisKV) (decided : List Op)
    (hinv : hasAllShards NShards kv) :
    (∀ args : GetArgs, 0 ≤ args.Shard → args.Shard < NShards →
        (Propose kv decided { Operation := "Get", Value := some (Payload.get args) }).isSome =
          true →
        (Get kv decided args).isSome = true) ∧
      (∀ args : PutAppendArgs, 0 ≤ args.Shard → args.Shard < NShards →
        (Propose kv decided
          { Operation := args.Op, Value := some (Payload.putAppend args) }).isSome = true →
        (PutAppend kv decided args).isSome = true) ∧
      (∀ args : UpdateArgs, 0 ≤ args.Shard → args.Shard < NShards →
        (Propose kv decided
          { Operation := "Update", Value := some (Payload.update args) }).isSome = true →
        (Update kv decided args).isSome = true) := by
  refine ⟨?_, ?_, ?_⟩
  · intro args h0 h1 hp
    obtain ⟨kv1, hkv1⟩ := Option.isSome_iff_exists.mp hp
    have hinv1 := hasAllShards_of_isSome NShards kv kv1
      (Propose_frame kv kv1 decided _ hkv1).2.2.2 hinv
    obtain ⟨st, hst⟩ := Option.isSome_iff_exists.mp (hinv1 args.Shard h0 h1)
    unfold Get
    split
    · rfl
    · simp only [hkv1, hst]
      cases mapGet st.database args.Key <;> rfl
  · intro args h0 h1 hp
    obtain ⟨kv1, hkv1⟩ := Option.isSome_iff_exists.mp hp
    obtain ⟨st, hst⟩ := Option.isSome_iff_exists.mp (hinv args.Shard h0 h1)
    unfold PutAppend
    split
    · rfl
    · simp only [hst, hkv1]
      split <;> rfl
  · intro args h0 h1 hp
    obtain ⟨kv1, hkv1⟩ := Option.isSome_iff_exists.mp hp
    obtain ⟨st, hst⟩ := Option.isSome_iff_exists.mp (hinv args.Shard h0 h1)
    unfold Update
    simp only [hst, hkv1]
    split
    · rfl
    · split <;> rfl

/-- Claim C20: the replica built by `StartServer` holds a shard state (with its
database and its `maxClientSeq`) for every shard index `0 .. NShards - 1`, and
every operation that returns keeps this invariant: `Apply` of any op, `Propose`,
the Get, PutAppend and Update handlers, and `tick`. Hence, under the invariant
and for a shard of `0 .. NShards - 1`, the lookup `shardState[shard]` finds an
entry: `Apply` of a Get, Put or Append op does not panic, `Apply` of an Update
op panics only on the nil received map, and a handler returns whenever its
`Propose` does. -/
theorem shardState_entries_invariant (NShards gid : Int) :
    hasAllShards NShards (StartServer NShards gid) ∧
      (∀ kv kv1 op, hasAllShards NShards kv → Apply kv op = some kv1 →
        hasAllShards NShards kv1) ∧
      (∀ kv kv1 decided op, hasAllShards NShards kv → Propose kv decided op = some kv1 →
        hasAllShards NShards kv1) ∧
      (∀ kv kv1 decided args reply, hasAllShards NShards kv →
        Get kv decided args = some (kv1, reply) → hasAllShards NShards kv1) ∧
      (∀ kv kv1 decided args reply, hasAllShards NShards kv →
        PutAppend kv decided args = some (kv1, reply) → hasAllShards NShards kv1) ∧
      (∀ kv kv1 decided args reply, hasAllShards NShards kv →
        Update kv decided args = some (kv1, reply) → hasAllShards NShards kv1) ∧
      (∀ kv kv1 newConfig acks decidedP decidedC sent, hasAllShards NShards kv →
        tick NShards kv newConfig acks decidedP decidedC = some (kv1, sent) →
        hasAllShards NShards kv1) ∧
      (∀ kv shard, hasAllShards NShards kv → 0 ≤ shard → shard < NShards →
        ∃ st, kv.shardState shard = some st) ∧
      (∀ kv, hasAllShards NShards kv →
        (∀ args : GetArgs, 0 ≤ args.Shard → args.Shard < NShards →
          (Apply kv { Operation := "Get", Value := some (Payload.get args) }).isSome = true) ∧
        (∀ args : PutAppendArgs, 0 ≤ args.Shard → args.Shard < NShards →
          (Apply kv { Operation := "Put",
                      Value := some (Payload.putAppend args) }).isSome = true ∧
          (Apply kv { Operation := "Append",
                      Value := some (Payload.putAppend args) }).isSome = true) ∧
        (∀ args : UpdateArgs, 0 ≤ args.Shard → args.Shard < NShards →
          (Apply kv { Operation := "Update", Value := some (Payload.update args) }).isSome =
            kv.isRecieved.isSome)) ∧
      (∀ kv decided, hasAllShards NShards kv →
        (∀ args : GetArgs, 0 ≤ args.Shard → args.Shard < NShards →
          (Propose kv decided
            { Operation := "Get", Value := some (Payload.get args) }).isSome = true →
          (Get kv decided args).isSome = true) ∧
        (∀ args : PutAppendArgs, 0 ≤ args.Shard → args.Shard < NShards →
          (Propose kv decided
            { Operation := args.Op, Value := some (Payload.putAppend args) }).isSome = true →
          (PutAppend kv decided args).isSome = true) ∧
        (∀ args : UpdateArgs, 0 ≤ args.Shard → args.Shard < NShards →
          (Propose kv decided
            { Operation := "Update", Value := some (Payload.update args) }).isSome = true →
          (Update kv decided args).isSome = true)) := by
  refine ⟨?_, ?_, ?_, ?_, ?_, ?_, ?_, ?_, ?_, ?_⟩
  · intro s h0 h1
    simp [StartServer, h0, h1]
  · intro kv kv1 op hinv h
    exact hasAllShards_of_isSome NShards kv kv1 (Apply_frame kv kv1 op h).2.2.2 hinv
  · intro kv kv1 decided op hinv h
    exact hasAllShards_of_isSome NShards kv kv1 (Propose_frame kv kv1 decided op h).2.2.2 hinv
  · intro kv kv1 decided args reply hinv h
    exact hasAllShards_of_isSome NShards kv kv1 (Get_frame kv kv1 decided args reply h).2.2.2 hinv
  · intro kv kv1 decided args reply hinv h
    exact hasAllShards_of_isSome NShards kv kv1
      (PutAppend_frame kv kv1 decided args reply h).2.2.2 hinv
  · intro kv kv1 decided args reply hinv h
    exact hasAllShards_of_isSome NShards kv kv1
      (Update_frame kv kv1 decided args reply h).2.2.2 hinv
  · intro kv kv1 newConfig acks decidedP decidedC sent hinv h
    by_cases hnum : newConfig.Num = kv.config.Num
    · unfold tick at h
      simp only [hnum, ne_eq, not_true_eq_false, if_false, Option.some.injEq,
        Prod.mk.injEq] at h
      rw [← h.1]
      exact hinv
    · obtain ⟨kv2, hcu, hcase⟩ :=
        tick_cases NShards kv kv1 newConfig acks decidedP decidedC sent hnum h
      have hinv2 := hasAllShards_of_isSome NShards kv kv2
        (tickCatchUp_frame NShards kv kv2 newConfig acks decidedP decidedC sent hcu).2.2.2 hinv
      rcases hcase with ⟨_, _, hk⟩ | ⟨_, hk⟩
      · rw [hk]
        exact hinv2
      · rw [hk]
        exact hasAllShards_promote NShards kv2 newConfig hinv2
  · intro kv shard hinv h0 h1
    exact Option.isSome_iff_exists.mp (hinv shard h0 h1)
  · intro kv hinv
    exact Apply_in_range NShards kv hinv
  · intro kv decided hinv
    exact handlers_in_range NShards kv decided hinv

/-- Witness for claim C20: on the replica built by `StartServer` for ten shards,
the Get of `exGetArgs` carrying `ConfigNum = 0` meets the Append of
`exAppendArgs` decided for slot 1, and returns. -/
theorem shardState_entries_invariant_witness :
    hasAllShards 10 (StartServer 10 1) ∧
      (Get (StartServer 10 1) [exAppendOp] { exGetArgs with ConfigNum := 0 }).isSome = true ∧
      (∀ kv1 reply,
        Get (StartServer 10 1) [exAppendOp] { exGetArgs with ConfigNum := 0 } =
          some (kv1, reply) → hasAllShards 10 kv1) :=
  ⟨(shardState_entries_invariant 10 1).1, by decide, fun kv1 reply h =>
    (shardState_entries_invariant 10 1).2.2.2.1 (StartServer 10 1) kv1 [exAppendOp]
      { exGetArgs with ConfigNum := 0 } reply (shardState_entries_invariant 10 1).1 h⟩

/-! ## Claim C11: Append, and scenario S1 -/

/-- The reads of a replica after one shard state has been assigned. -/
theorem dbGet_setShard (kv : DisKV) (shard : Int) (st : ShardState) (s : Int) (k : String) :
    dbGet (incLastApply (setShard kv shard st)) s k =
      if s = shard then mapGet st.database k else dbGet kv s k := by
  by_cases hs : s = shard
  · subst hs
    simp [dbGet, incLastApply, setShard]
  · simp [dbGet, incLastApply, setShard, hs]

/-- The sequence numbers of a replica after one shard state has been assigned. -/
theorem seqAt_setShard (kv : DisKV) (shard : Int) (st : ShardState) (s i : Int) :
    seqAt (incLastApply (setShard kv shard st)) s i =
      if s = shard then seqOf st.maxClientSeq i else seqAt kv s i := by
  by_cases hs : s = shard
  · subst hs
    simp [seqAt, incLastApply, setShard]
  · simp [seqAt, incLastApply, setShard, hs]

/-- The PutAppend handler on a fresh Put or Append, with no value decided by
others: the reply is `OK`, the key of the request is written in its shard, the
sequence number is recorded, and nothing else is changed. -/
theorem PutAppend_fresh_nil (kv : DisKV) (p : PutAppendArgs) (st : ShardState)
    (hop : p.Op = "Put" ∨ p.Op = "Append") (hcfg : p.ConfigNum = kv.config.Num)
    (hst : kv.shardState p.Shard = some st) (hseq : p.Seq > seqAt kv p.Shard p.ID) :
    ∃ kv1, PutAppend kv [] p = some (kv1, { Err := OK }) ∧
      kv1.config = kv.config ∧
      (∀ s, (kv1.shardState s).isSome = (kv.shardState s).isSome) ∧
      (∀ s k, dbGet kv1 s k =
        if s = p.Shard ∧ k = p.Key then
          some (if p.Op = "Put" then p.Value
                else (dbGet kv p.Shard p.Key).getD "" ++ p.Value)
        else dbGet kv s k) ∧
      (∀ s i, seqAt kv1 s i = if s = p.Shard ∧ i = p.ID then p.Seq else seqAt kv s i) := by
  have hseq1 : p.Seq > seqOf st.maxClientSeq p.ID := by
    simpa [seqAt, hst] using hseq
  have hnd : ¬ p.Seq ≤ seqOf st.maxClientSeq p.ID := by omega
  have hdb : dbGet kv p.Shard p.Key = mapGet st.database p.Key := by
    simp [dbGet, hst]
  have hmax : max (seqOf st.maxClientSeq p.ID) p.Seq = p.Seq := max_eq_right (by omega)
  rcases hop with hput | happ
  · have hap := Apply_Put_eq kv p st hst
    refine ⟨incLastApply (setShard kv p.Shard
        { maxClientSeq := bumpSeq st.maxClientSeq p.ID p.Seq,
          database := mapSet st.database p.Key p.Value }),
      by simp [PutAppend, hcfg, hst, hnd, Propose_nil, hput, hap], rfl,
      fun s => setShard_isSome kv p.Shard _ st hst s, ?_, ?_⟩
    · intro s k
      rw [dbGet_setShard]
      by_cases hs : s = p.Shard
      · by_cases hk : k = p.Key
        · subst hk
          simp [hs, hput, mapGet_mapSet_same]
        · simp only [hs, hk, and_false, if_true, if_false]
          rw [mapGet_mapSet_other _ _ _ _ hk]
          simp [dbGet, hst]
      · simp [hs]
    · intro s i
      rw [seqAt_setShard]
      by_cases hs : s = p.Shard
      · by_cases hi : i = p.ID
        · subst hi
          simp only [hs, and_self, if_true]
          rw [seqOf_bumpSeq_same, hmax]
        · simp only [hs, hi, and_false, if_true, if_false]
          rw [seqOf_bumpSeq_other _ _ _ _ hi]
          simp [seqAt, hst]
      · simp [hs]
  · have hap := Apply_Append_eq kv p st hst
    have hne : ¬ p.Op = "Put" := by
      rw [happ]
      decide
    refine ⟨incLastApply (setShard kv p.Shard
        { maxClientSeq := bumpSeq st.maxClientSeq p.ID p.Seq,
          database := mapSet st.database p.Key
            ((mapGet st.database p.Key).getD "" ++ p.Value) }),
      by simp [PutAppend, hcfg, hst, hnd, Propose_nil, happ, hap], rfl,
      fun s => setShard_isSome kv p.Shard _ st hst s, ?_, ?_⟩
    · intro s k
      rw [dbGet_setShard]
      by_cases hs : s = p.Shard
      · by_cases hk : k = p.Key
        · subst hk
          simp [hs, hne, mapGet_mapSet_same, hdb]
        · simp only [hs, hk, and_false, if_true, if_false]
          rw [mapGet_mapSet_other _ _ _ _ hk]
          simp [dbGet, hst]
      · simp [hs]
    · intro s i
      rw [seqAt_setShard]
      by_cases hs : s = p.Shard
      · by_cases hi : i = p.ID
        · subst hi
          simp only [hs, and_self, if_true]
          rw [seqOf_bumpSeq_same, hmax]
        · simp only [hs, hi, and_false, if_true, if_false]
          rw [seqOf_bumpSeq_other _ _ _ _ hi]
          simp [seqAt, hst]
      · simp [hs]

/-- The Get handler with no value decided by others: the reply is that of the
lookup of the key, and no database is changed. -/
theorem Get_nil_view (kv : DisKV) (g : GetArgs) (st : ShardState)
    (hcfg : g.ConfigNum = kv.config.Num) (hst : kv.shardState g.Shard = some st) :
    ∃ kv1, Get kv [] g = some (kv1, getReply (dbGet kv g.Shard g.Key)) ∧
      kv1.config = kv.config ∧
      (∀ s, (kv1.shardState s).isSome = (kv.shardState s).isSome) ∧
      (∀ s k, dbGet kv1 s k = dbGet kv s k) := by
  have hdb : dbGet kv g.Shard g.Key = mapGet st.database g.Key := by
    simp [dbGet, hst]
  have hframe : ∀ s k, dbGet (incLastApply (setShard kv g.Shard
      { maxClientSeq := bumpSeq st.maxClientSeq g.ID g.Seq, database := st.database })) s k =
      dbGet kv s k := by
    intro s k
    rw [dbGet_setShard]
    by_cases hs : s = g.Shard
    · subst hs
      simp [dbGet, hst]
    · simp [hs]
  cases hk : mapGet st.database g.Key with
  | none =>
    refine ⟨incLastApply (setShard kv g.Shard
        { maxClientSeq := bumpSeq st.maxClientSeq g.ID g.Seq, database := st.database }),
      ?_, rfl, fun s => setShard_isSome kv g.Shard _ st hst s, hframe⟩
    rw [hdb, hk]
    exact Get_nil_absent kv g st hcfg hst hk
  | some value =>
    refine ⟨incLastApply (setShard kv g.Shard
        { maxClientSeq := bumpSeq st.maxClientSeq g.ID g.Seq, database := st.database }),
      ?_, rfl, fun s => setShard_isSome kv g.Shard _ st hst s, hframe⟩
    rw [hdb, hk]
    exact Get_nil_found kv g st value hcfg hst hk

/-- Claim C11: for every replica state that holds a state for the op's shard and
every Append op with `seq > maxClientSeq[clientId]`, `Apply` sets
`database[key]` to the old value (the empty string if the key is absent)
followed by the op's value and leaves every other key of the shard unchanged.
Hence, on a replica where every proposal is decided at the next free slot, for a
key absent at the start, two Appends of one client with increasing fresh
sequence numbers make Get reply `OK` with the first value followed by the
second; and scenario S1 (Put a = 1, Put b = 2, Append x to a, whatever the
shards `sa`, `sb`, `sc` of the three keys) makes Get reply `"1x"` for `a`, `"2"`
for `b`, and `ErrNoKey` for `c` when `c` is absent at the start. -/
theorem Append_extends_value (kv : DisKV) (args : PutAppendArgs) (st : ShardState)
    (h : kv.shardState args.Shard = some st)
    (hseq : args.Seq > seqOf st.maxClientSeq args.ID) :
    (∃ kv1 st1,
        Apply kv { Operation := "Append", Value := some (Payload.putAppend args) } = some kv1 ∧
        kv1.shardState args.Shard = some st1 ∧
        mapGet st1.database args.Key =
          some ((mapGet st.database args.Key).getD "" ++ args.Value) ∧
        (∀ k, k ≠ args.Key → mapGet st1.database k = mapGet st.database k) ∧
        seqOf st1.maxClientSeq args.ID = args.Seq) ∧
      (∀ (rep : DisKV) (p1 p2 : PutAppendArgs) (g : GetArgs),
        (rep.shardState p1.Shard).isSome = true →
        dbGet rep p1.Shard p1.Key = none →
        p1.Op = "Append" → p2.Op = "Append" →
        p1.ConfigNum = rep.config.Num → p2.ConfigNum = rep.config.Num →
        g.ConfigNum = rep.config.Num →
        p2.Shard = p1.Shard → g.Shard = p1.Shard → p2.Key = p1.Key → g.Key = p1.Key →
        p2.ID = p1.ID → p1.Seq > seqAt rep p1.Shard p1.ID → p2.Seq > p1.Seq →
        ∃ kv1 kv2 kv3,
          PutAppend rep [] p1 = some (kv1, { Err := OK }) ∧
          PutAppend kv1 [] p2 = some (kv2, { Err := OK }) ∧
          Get kv2 [] g = some (kv3, { Err := OK, Value := p1.Value ++ p2.Value })) ∧
      (∀ (rep : DisKV) (sa sb sc id q1 q2 q3 q4 q5 q6 : Int),
        (rep.shardState sa).isSome = true → (rep.shardState sb).isSome = true →
        (rep.shardState sc).isSome = true →
        dbGet rep sc "c" = none →
        q1 > seqAt rep sa id → q2 > seqAt rep sb id → q2 > q1 → q3 > q2 →
        ∃ kv1 kv2 kv3 kv4 kv5 kv6,
          PutAppend rep []
              { Key := "a", Value := "1", Op := "Put", ID := id, Seq := q1,
                ConfigNum := rep.config.Num, Shard := sa } = some (kv1, { Err := OK }) ∧
          PutAppend kv1 []
              { Key := "b", Value := "2", Op := "Put", ID := id, Seq := q2,
                ConfigNum := rep.config.Num, Shard := sb } = some (kv2, { Err := OK }) ∧
          PutAppend kv2 []
              { Key := "a", Value := "x", Op := "Append", ID := id, Seq := q3,
                ConfigNum := rep.config.Num, Shard := sa } = some (kv3, { Err := OK }) ∧
          Get kv3 []
              { Key := "a", ID := id, Seq := q4, ConfigNum := rep.config.Num, Shard := sa } =
            some (kv4, { Err := OK, Value := "1x" }) ∧
          Get kv4 []
              { Key := "b", ID := id, Seq := q5, ConfigNum := rep.config.Num, Shard := sb } =
            some (kv5, { Err := OK, Value := "2" }) ∧
          Get kv5 []
              { Key := "c", ID := id, Seq := q6, ConfigNum := rep.config.Num, Shard := sc } =
            some (kv6, { Err := ErrNoKey, Value := "NO KEY" })) := by
  refine ⟨?_, ?_, ?_⟩
  · refine ⟨_, _, Apply_Append_eq kv args st h, setShard_same _ _ _, mapGet_mapSet_same _ _ _,
      fun k hk => mapGet_mapSet_other _ _ k _ hk, ?_⟩
    show seqOf (bumpSeq st.maxClientSeq args.ID args.Seq) args.ID = args.Seq
    rw [seqOf_bumpSeq_same]
    exact max_eq_right (by omega)
  · intro rep p1 p2 g hsh habs hop1 hop2 hc1 hc2 hcg hs2 hsg hk2 hkg hid hq1 hq2
    obtain ⟨st0, hst0⟩ := Option.isSome_iff_exists.mp hsh
    obtain ⟨kv1, hr1, hcfg1, hsome1, hdb1, hseq1⟩ :=
      PutAppend_fresh_nil rep p1 st0 (Or.inr hop1) hc1 hst0 hq1
    have hsh1 : (kv1.shardState p2.Shard).isSome = true := by
      rw [hs2, hsome1]
      exact hsh
    obtain ⟨st1, hst1⟩ := Option.isSome_iff_exists.mp hsh1
    have hfresh2 : p2.Seq > seqAt kv1 p2.Shard p2.ID := by
      rw [hseq1, hs2, hid]
      simp only [and_self, if_true]
      exact hq2
    obtain ⟨kv2, hr2, hcfg2, hsome2, hdb2, _⟩ :=
      PutAppend_fresh_nil kv1 p2 st1 (Or.inr hop2) (by rw [hcfg1]; exact hc2) hst1 hfresh2
    have hsh2 : (kv2.shardState g.Shard).isSome = true := by
      rw [hsg, hsome2, hsome1]
      exact hsh
    obtain ⟨st2, hst2⟩ := Option.isSome_iff_exists.mp hsh2
    obtain ⟨kv3, hr3, _, _, _⟩ :=
      Get_nil_view kv2 g st2 (by rw [hcfg2, hcfg1]; exact hcg) hst2
    have hnp1 : ¬ p1.Op = "Put" := by
      rw [hop1]
      decide
    have hnp2 : ¬ p2.Op = "Put" := by
      rw [hop2]
      decide
    have hval1 : dbGet kv1 p1.Shard p1.Key = some (p1.Value) := by
      rw [hdb1]
      simp [hnp1, habs]
    have hval2 : dbGet kv2 g.Shard g.Key = some (p1.Value ++ p2.Value) := by
      rw [hdb2, hsg, hkg, hs2, hk2]
      simp [hnp2, hval1]
    rw [hval2] at hr3
    exact ⟨kv1, kv2, kv3, hr1, hr2, hr3⟩
  · intro rep sa sb sc id q1 q2 q3 q4 q5 q6 hsa hsb hsc habs hq1 hqb hq2 hq3
    obtain ⟨sta, hsta⟩ := Option.isSome_iff_exists.mp hsa
    obtain ⟨kv1, hr1, hcfg1, hsome1, hdb1, hseq1⟩ :=
      PutAppend_fresh_nil rep
        { Key := "a", Value := "1", Op := "Put", ID := id, Seq := q1,
          ConfigNum := rep.config.Num, Shard := sa } sta (Or.inl rfl) rfl hsta hq1
    have hsb1 : (kv1.shardState sb).isSome = true := by
      rw [hsome1]
      exact hsb
    obtain ⟨stb, hstb⟩ := Option.isSome_iff_exists.mp hsb1
    have hfresh2 : q2 > seqAt kv1 sb id := by
      rw [hseq1]
      simp only [and_true]
      split <;> omega
    obtain ⟨kv2, hr2, hcfg2, hsome2, hdb2, hseq2⟩ :=
      PutAppend_fresh_nil kv1
        { Key := "b", Value := "2", Op := "Put", ID := id, Seq := q2,
          ConfigNum := rep.config.Num, Shard := sb } stb (Or.inl rfl)
        (by rw [hcfg1]) hstb hfresh2
    have hsa2 : (kv2.shardState sa).isSome = true := by
      rw [hsome2, hsome1]
      exact hsa
    obtain ⟨sta2, hsta2⟩ := Option.isSome_iff_exists.mp hsa2
    have hfresh3 : q3 > seqAt kv2 sa id := by
      rw [hseq2, hseq1]
      simp only [and_true]
      split
      · omega
      · simp only [if_true]
        omega
    obtain ⟨kv3, hr3, hcfg3, hsome3, hdb3, _⟩ :=
      PutAppend_fresh_nil kv2
        { Key := "a", Value := "x", Op := "Append", ID := id, Seq := q3,
          ConfigNum := rep.config.Num, Shard := sa } sta2 (Or.inr rfl)
        (by rw [hcfg2, hcfg1]) hsta2 hfresh3
    have hsa3 : (kv3.shardState sa).isSome = true := by
      rw [hsome3]
      exact hsa2
    obtain ⟨sta3, hsta3⟩ := Option.isSome_iff_exists.mp hsa3
    obtain ⟨kv4, hr4, hcfg4, hsome4, hdb4⟩ :=
      Get_nil_view kv3
        { Key := "a", ID := id, Seq := q4, ConfigNum := rep.config.Num, Shard := sa } sta3
        (by rw [hcfg3, hcfg2, hcfg1]) hsta3
    have hsb4 : (kv4.shardState sb).isSome = true := by
      rw [hsome4, hsome3, hsome2]
      exact hsb1
    obtain ⟨stb4, hstb4⟩ := Option.isSome_iff_exists.mp hsb4
    obtain ⟨kv5, hr5, hcfg5, hsome5, hdb5⟩ :=
      Get_nil_view kv4
        { Key := "b", ID := id, Seq := q5, ConfigNum := rep.config.Num, Shard := sb } stb4
        (by rw [hcfg4, hcfg3, hcfg2, hcfg1]) hstb4
    have hsc5 : (kv5.shardState sc).isSome = true := by
      rw [hsome5, hsome4, hsome3, hsome2, hsome1]
      exact hsc
    obtain ⟨stc5, hstc5⟩ := Option.isSome_iff_exists.mp hsc5
    obtain ⟨kv6, hr6, _, _, _⟩ :=
      Get_nil_view kv5
        { Key := "c", ID := id, Seq := q6, ConfigNum := rep.config.Num, Shard := sc } stc5
        (by rw [hcfg5, hcfg4, hcfg3, hcfg2, hcfg1]) hstc5
    have hab : ¬ ("a" : String) = "b" := by decide
    have hba : ¬ ("b" : String) = "a" := by decide
    have hca : ¬ ("c" : String) = "a" := by decide
    have hcb : ¬ ("c" : String) = "b" := by decide
    have hnp : ¬ ("Append" : String) = "Put" := by decide
    have hcat : ("1" : String) ++ "x" = "1x" := by decide
    have ha1 : dbGet kv1 sa "a" = some "1" := by
      rw [hdb1]
      simp
    have ha2 : dbGet kv2 sa "a" = some "1" := by
      rw [hdb2]
      simp [hab, ha1]
    have ha3 : dbGet kv3 sa "a" = some "1x" := by
      rw [hdb3]
      simp [hnp, ha2, hcat]
    have hb2 : dbGet kv2 sb "b" = some "2" := by
      rw [hdb2]
      simp
    have hb3 : dbGet kv3 sb "b" = some "2" := by
      rw [hdb3]
      simp [hba, hb2]
    have hb4 : dbGet kv4 sb "b" = some "2" := by
      rw [hdb4]
      exact hb3
    have hc5 : dbGet kv5 sc "c" = none := by
      rw [hdb5, hdb4, hdb3]
      simp only [hca, and_false, if_false]
      rw [hdb2]
      simp only [hcb, and_false, if_false]
      rw [hdb1]
      simp only [hca, and_false, if_false]
      exact habs
    rw [show dbGet kv3 sa "a" = some "1x" from ha3] at hr4
    rw [show dbGet kv4 sb "b" = some "2" from hb4] at hr5
    rw [show dbGet kv5 sc "c" = none from hc5] at hr6
    exact ⟨kv1, kv2, kv3, kv4, kv5, kv6, hr1, hr2, hr3, hr4, hr5, hr6⟩

/-- Witness for claim C11: the hypotheses hold on `exReplica` with
`exAppendArgs`; and scenario S1 run on `exReplica` with the three keys in
shards 0, 1 and 0. -/
theorem Append_extends_value_witness :
    exReplica.shardState exAppendArgs.Shard = some MakeShardState ∧
      exAppendArgs.Seq > seqOf MakeShardState.maxClientSeq exAppendArgs.ID ∧
      (∃ kv1 st1,
        Apply exReplica
            { Operation := "Append", Value := some (Payload.putAppend exAppendArgs) } =
          some kv1 ∧
        kv1.shardState exAppendArgs.Shard = some st1 ∧
        mapGet st1.database exAppendArgs.Key =
          some ((mapGet MakeShardState.database exAppendArgs.Key).getD "" ++
            exAppendArgs.Value) ∧
        (∀ k, k ≠ exAppendArgs.Key →
          mapGet st1.database k = mapGet MakeShardState.database k) ∧
        seqOf st1.maxClientSeq exAppendArgs.ID = exAppendArgs.Seq) ∧
      (∃ kv1 kv2 kv3 kv4 kv5 kv6,
        PutAppend exReplica []
            { Key := "a", Value := "1", Op := "Put", ID := 7, Seq := 1,
              ConfigNum := exReplica.config.Num, Shard := 0 } = some (kv1, { Err := OK }) ∧
        PutAppend kv1 []
            { Key := "b", Value := "2", Op := "Put", ID := 7, Seq := 2,
              ConfigNum := exReplica.config.Num, Shard := 1 } = some (kv2, { Err := OK }) ∧
        PutAppend kv2 []
            { Key := "a", Value := "x", Op := "Append", ID := 7, Seq := 3,
              ConfigNum := exReplica.config.Num, Shard := 0 } = some (kv3, { Err := OK }) ∧
        Get kv3 []
            { Key := "a", ID := 7, Seq := 4, ConfigNum := exReplica.config.Num, Shard := 0 } =
          some (kv4, { Err := OK, Value := "1x" }) ∧
        Get kv4 []
            { Key := "b", ID := 7, Seq := 5, ConfigNum := exReplica.config.Num, Shard := 1 } =
          some (kv5, { Err := OK, Value := "2" }) ∧
        Get kv5 []
            { Key := "c", ID := 7, Seq := 6, ConfigNum := exReplica.config.Num, Shard := 0 } =
          some (kv6, { Err := ErrNoKey, Value := "NO KEY" })) :=
  ⟨by decide, by decide,
    (Append_extends_value exReplica exAppendArgs MakeShardState (by decide) (by decide)).1,
    (Append_extends_value exReplica exAppendArgs MakeShardState (by decide) (by decide)).2.2
      exReplica 0 1 0 7 1 2 3 4 5 6 (by decide) (by decide) (by decide) (by decide)
      (by decide) (by decide) (by decide) (by decide)⟩

end Diskv
